import Mathlib

/-!
Verification of the expression-level code generator of ply
(src/libply/built-in/memory.c): a shallow embedding of the type
descriptors, expression nodes, the per-operator hooks (rewrite,
type-infer, static-validate, pre/post-order codegen) and of the
pseudo-instruction streams they emit, together with an executable
machine semantics for those streams.

Modelling conventions:
* machine integers are `Int`/`Nat`; the byte values handled by the
  emitted comparison/copy code lie in 0..255 so no wrap-around arises;
* fallible hooks return their C `int` status (0 = ok, -22 = -EINVAL)
  together with the rewritten node and the diagnostics they emit
  (`_ne` = error, `_nw` = warning);
* `assert` failures (fatal, process-terminating) are modelled as
  `Option.none` results, distinct from user-facing diagnostics;
* the C code mutates nodes and symbols in place; the embedding passes
  the updated node (and, for `type_add`, the type registry) explicitly.
-/

/-- Backing kind tag for maps; `BPF_MAP_TYPE_HASH` is the only kind this
core produces. -/
def BPF_MAP_TYPE_HASH : Nat := 1

/-- `-EINVAL`, the error status returned by the hooks on a diagnosed error. -/
def EINVAL_NEG : Int := -22

/-- Type descriptors (`struct type`): tagged variant over scalar, pointer,
array, struct, map, function and void, mirroring `enum ttype`.  A scalar
carries its name and byte size; a struct carries its (ordered, named)
fields; a map carries key type, value type, the backing-kind tag and the
length argument given to `type_map_of`.  `named` models a
typedef/qualifier wrapper, stripped by `type_base`. -/
inductive Ty where
  | scalar (name : String) (sz : Nat)
  | ptr (t : Ty)
  | arr (t : Ty) (len : Nat)
  | tstruct (name : String) (fields : List (String × Ty))
  | tmap (ktype vtype : Ty) (mtype : Nat) (len : Nat)
  | func
  | void
  | named (name : String) (t : Ty)

/-- `t_int`: the built-in signed integer type (`&t_int`). -/
def t_int : Ty := Ty.scalar "int" 8

/-- `t_char`: the built-in character type (`&t_char`). -/
def t_char : Ty := Ty.scalar "char" 1

/-- `t_void`. -/
def t_void : Ty := Ty.void

/-- `type_base`: strip qualifier/typedef wrappers. -/
def type_base : Ty → Ty
  | Ty.named _ t => type_base t
  | t => t

/-- `type_sizeof` on a resolved type.  Modelled from the spec: "a type's
`sizeof` is defined for all non-function variants"; the function variant
(and void) have no object size.  A struct's size is the layout size
recorded by the external type registry; only the variants the claims
exercise need a concrete size, a struct's size is never consulted by the
code under verification. -/
def type_sizeof : Ty → Int
  | Ty.scalar _ sz => (sz : Int)
  | Ty.ptr _ => 8
  | Ty.arr t len => type_sizeof t * (len : Int)
  | Ty.tstruct _ _ => 0
  | Ty.tmap _ _ _ _ => -1
  | Ty.func => -1
  | Ty.void => 0
  | Ty.named _ t => type_sizeof t

/-- `type_sizeof` applied to a symbol's possibly-unresolved type.
Modelled from the spec: an unresolved symbol type has no defined size,
reported as a negative size so that hooks defer. -/
def type_sizeof_opt : Option Ty → Int
  | none => -1
  | some t => type_sizeof t

/-- `type_is_string`: a (qualifier-stripped) array of `char`. -/
def type_is_string (t : Ty) : Bool :=
  match type_base t with
  | Ty.arr e _ =>
    match type_base e with
    | Ty.scalar "char" 1 => true
    | _ => false
  | _ => false

/-- `type_array_of`. -/
def type_array_of (t : Ty) (len : Nat) : Ty := Ty.arr t len

/-- `type_map_of`. -/
def type_map_of (ktype vtype : Ty) (mtype : Nat) (len : Nat) : Ty :=
  Ty.tmap ktype vtype mtype len

/-- Storage location of a symbol (`irs.loc`): unassigned, register or
stack. -/
inductive Loc where
  | unassigned
  | reg
  | stack
  deriving DecidableEq

/-- Codegen hints (`irs.hint`): `stack` forces stack placement, `lval`
marks a value about to be overwritten, `dot` marks a dereference whose
parent only wants one member. -/
structure Hint where
  stack : Bool := false
  lval : Bool := false
  dot : Bool := false

/-- Instruction-level representation of a symbol (`struct irstate`):
location kind, register number, stack offset, byte size and hints. -/
structure Irs where
  loc : Loc := Loc.unassigned
  reg : Nat := 0
  stack : Int := 0
  size : Nat := 0
  hint : Hint := {}

/-- A symbol (`struct sym`): optional resolved type plus its IRS. -/
structure Symb where
  type : Option Ty := none
  irs : Irs := {}

/-- Expression-graph nodes: an expression (`N_EXPR`, operator name plus
ordered arguments), a string literal (`N_STRING`, byte data plus the
`virtual` flag) or a number literal (`N_NUM`).  Every node carries
exactly one symbol. -/
inductive Node where
  | expr (func : String) (args : List Node) (sym : Symb)
  | nstr (data : List Nat) (virt : Bool) (sym : Symb)
  | num (val : Int) (sym : Symb)

/-- The symbol attached to a node (`n->sym`). -/
def Node.sym : Node → Symb
  | Node.expr _ _ s => s
  | Node.nstr _ _ s => s
  | Node.num _ s => s

/-- Argument list of an expression node (`n->expr.args`; empty for
literals). -/
def Node.args : Node → List Node
  | Node.expr _ as _ => as
  | _ => []

/-- Operator name of an expression node (`n->expr.func`). -/
def Node.exprFunc : Node → String
  | Node.expr f _ _ => f
  | _ => ""

/-- `n->ntype == N_STRING`. -/
def Node.isString : Node → Bool
  | Node.nstr _ _ _ => true
  | _ => false

/-- String data of a string-literal node (`n->string.data`), as bytes. -/
def Node.stringData : Node → List Nat
  | Node.nstr d _ _ => d
  | _ => []

/-- `node_is(n, name)`: `n` is an expression node of operator `name`. -/
def node_is (n : Node) (name : String) : Bool :=
  match n with
  | Node.expr f _ _ => f = name
  | _ => false

/-- Replace the symbol of a node. -/
def Node.withSym : Node → Symb → Node
  | Node.expr f as _, s => Node.expr f as s
  | Node.nstr d v _, s => Node.nstr d v s
  | Node.num x _, s => Node.num x s

/-- Set the `virtual` flag of a string-literal node
(`s->string.virtual = 1`; identity on other nodes). -/
def Node.setVirtual : Node → Node
  | Node.nstr d _ s => Node.nstr d true s
  | n => n

/-- A diagnostic: `_nw` emits a warning, `_ne` emits an error. -/
inductive Diag where
  | warn
  | err
  deriving DecidableEq

/-- Result of a type-infer hook: the C return status, the (possibly
mutated) node and the emitted diagnostics. -/
structure InferRes where
  ret : Int
  node : Node
  diags : List Diag

/-- The loop body of `strcmp_type_infer` for one operand: a string
literal is marked virtual; a non-string-typed operand elicits the
`_nw` warning `a string was expected`; otherwise nothing happens. -/
def strcmp_check_arg (s : Node) : Node × List Diag :=
  if s.isString then (s.setVirtual, [])
  else if !type_is_string (s.sym.type.getD t_void) then (s, [Diag.warn])
  else (s, [])

/-- `strcmp_type_infer`: return immediately when the node is already
typed; defer until both operand types are known; check each operand
with `strcmp_check_arg`; assign the signed integer result type. -/
def strcmp_type_infer (n : Node) : InferRes :=
  match n with
  | Node.expr f (s0 :: s1 :: rest) sym =>
    if sym.type.isSome then ⟨0, n, []⟩
    else if !(s0.sym.type.isSome && s1.sym.type.isSome) then ⟨0, n, []⟩
    else
      ⟨0,
       Node.expr f ((strcmp_check_arg s0).1 :: (strcmp_check_arg s1).1 :: rest)
         { sym with type := some t_int },
       (strcmp_check_arg s0).2 ++ (strcmp_check_arg s1).2⟩
  | _ => ⟨0, n, []⟩

/-- Result of `struct_type_infer`, which also mutates the global type
registry through `type_add`. -/
structure StructInferRes where
  ret : Int
  node : Node
  registry : List Ty

/-- `struct_type_infer`: defer while any argument's type has no size
yet; otherwise synthesize an anonymous struct type whose fields `f0`,
`f1`, ... are typed from the arguments, register it with `type_add`,
and set it as the node's type.  Note: unlike every other type-infer hook
in this file, the C code has no `if (n->sym->type) return 0;` guard. -/
def struct_type_infer (registry : List Ty) (n : Node) : StructInferRes :=
  match n with
  | Node.expr f args sym =>
    if args.all (fun a => 0 ≤ type_sizeof_opt a.sym.type) then
      let fields := (List.range args.length).zip (args.map (fun a => a.sym.type.getD t_void))
      let t := Ty.tstruct ":anon" (fields.map (fun p => ("f" ++ toString p.1, p.2)))
      ⟨0, Node.expr f args { sym with type := some t }, registry ++ [t]⟩
    else ⟨0, n, registry⟩
  | _ => ⟨0, n, registry⟩

/-- `subscript_type_infer_up`: `n` has no type but the subscripted
symbol does; array/pointer subscripts demand a scalar key; the result
type follows the container (array element, pointee, map value type). -/
def subscript_type_infer_up (n : Node) : InferRes :=
  match n with
  | Node.expr f (src :: key :: rest) sym =>
    let t := type_base (src.sym.type.getD t_void)
    let scalar : Bool :=
      match type_base (key.sym.type.getD t_void) with
      | Ty.scalar _ _ => true
      | _ => false
    let isArrPtr : Bool :=
      match t with
      | Ty.arr _ _ => true
      | Ty.ptr _ => true
      | _ => false
    if !scalar && isArrPtr then ⟨EINVAL_NEG, n, [Diag.err]⟩
    else
      match t with
      | Ty.arr et _ =>
        ⟨0, Node.expr f (src :: key :: rest) { sym with type := some et }, []⟩
      | Ty.ptr pt =>
        ⟨0, Node.expr f (src :: key :: rest) { sym with type := some pt }, []⟩
      | Ty.tmap _ vt _ _ =>
        ⟨0, Node.expr f (src :: key :: rest) { sym with type := some vt }, []⟩
      | _ => ⟨EINVAL_NEG, n, [Diag.err]⟩
  | _ => ⟨0, n, []⟩

/-- `subscript_type_infer_down`: this subscript is the lvalue of an
assignment; its own type was set by downward inference, so build the
map type from the key type and that value type, with hash-table
backing. -/
def subscript_type_infer_down (n : Node) : InferRes :=
  match n with
  | Node.expr f (src :: key :: rest) sym =>
    let mt := type_map_of (key.sym.type.getD t_void) (sym.type.getD t_void)
                BPF_MAP_TYPE_HASH 0
    ⟨0, Node.expr f (src.withSym { src.sym with type := some mt } :: key :: rest) sym, []⟩
  | _ => ⟨0, n, []⟩

/-- `subscript_type_infer`: defer until the key type is known; infer
upward when the subscripted symbol is typed and this node is not,
downward when this node is typed (from an assignment) and the
subscripted symbol is not; otherwise do nothing. -/
def subscript_type_infer (n : Node) : InferRes :=
  match n with
  | Node.expr _ (src :: key :: _) sym =>
    if !key.sym.type.isSome then ⟨0, n, []⟩
    else if !sym.type.isSome && src.sym.type.isSome then subscript_type_infer_up n
    else if sym.type.isSome && !src.sym.type.isSome then subscript_type_infer_down n
    else ⟨0, n, []⟩
  | _ => ⟨0, n, []⟩

/-- `assign_static_validate`: purely structural, type-independent check;
accept iff the left-hand side is a subscript expression, else report
`can't assign a value to %N` and fail. -/
def assign_static_validate (n : Node) : Int × List Diag :=
  match n.args with
  | lval :: _ => if node_is lval "[]" then (0, []) else (EINVAL_NEG, [Diag.err])
  | [] => (0, [])

/-- `node_expr`: build an expression node with the given operator and
arguments (fresh symbol). -/
def node_expr (func : String) (args : List Node) : Node :=
  Node.expr func args {}

/-- `node_string`: build a string-literal node. -/
def node_string (data : List Nat) : Node :=
  Node.nstr data false {}

/-- `node_expr_ident`: build an identifier node, i.e. an expression node
with the given name and no arguments. -/
def node_expr_ident (func : String) : Node :=
  Node.expr func [] {}

/-- `struct_deref_rewrite`: desugar `sou->member` into `(*sou).member`,
rebuilding the pointer operand as an identifier named after the
operand's `expr.func` and the member as a fresh string node; the
replacement is swapped in by `node_replace`. -/
def struct_deref_rewrite (n : Node) : Node :=
  match n with
  | Node.expr _ (sou :: member :: _) _ =>
    node_expr "."
      [node_expr "u*" [node_expr_ident sou.exprFunc],
       node_string member.stringData]
  | _ => n

/-- Definition following the claim's words: the subtree one obtains by
writing `(*p).m` directly — a member access applied to a dereference of
the very operand `p`. -/
def deref_dot_direct (p : Node) (m : List Nat) : Node :=
  node_expr "." [node_expr "u*" [p], node_string m]

/-- Definition following the claim's words: a "map subscript" is a
subscript expression whose subscripted operand has (after stripping
qualifiers) a map type. -/
def is_map_subscript (n : Node) : Bool :=
  node_is n "[]" &&
    (match n.args with
     | src :: _ =>
       (match src.sym.type with
        | some t => (match type_base t with | Ty.tmap _ _ _ _ => true | _ => false)
        | none => false)
     | [] => false)

/-- `sym_on_stack`. -/
def sym_on_stack (s : Symb) : Bool := s.irs.loc = Loc.stack

/-- `sym_in_reg`. -/
def sym_in_reg (s : Symb) : Bool := s.irs.loc = Loc.reg

/-- The pseudo-instructions emitted by this code, at the abstraction
level of the `ir_emit_*` helpers it calls: byte loads from the stack
frame (`LDX(BPF_B, off)`), immediate/register subtraction and negation
(`ALU_IMM(BPF_SUB)`, `ALU(BPF_SUB)`, `ALU_IMM(BPF_NEG)`), immediate
moves, conditional/unconditional forward jumps to labels
(`JMP_IMM(BPF_JEQ/BPF_JNE)`, `BPF_JA`), label placement
(`ir_emit_label`), map-handle and frame-pointer loads (`ir_emit_ldmap`,
`ir_emit_ldbp`), the helper calls used here
(`BPF_FUNC_map_lookup_elem`, `map_delete_elem`, `map_update_elem`), the
bounds-checked copy of a helper-returned value into a symbol's stack
storage (`ir_emit_read_to_sym`), zero-fill of a stack byte range
(`ir_emit_bzero`) and finalization of a node's storage from a register
(`ir_emit_reg_to_sym`). -/
inductive Ins where
  | ldxb (r : Nat) (off : Int)
  | subImm (r : Nat) (imm : Int)
  | subReg (r s : Nat)
  | negReg (r : Nat)
  | movImm (r : Nat) (v : Int)
  | jeq (r : Nat) (imm : Int) (l : Nat)
  | jne (r : Nat) (imm : Int) (l : Nat)
  | ja (l : Nat)
  | label (l : Nat)
  | ldmap (r : Nat) (m : Nat)
  | ldbp (r : Nat) (off : Int)
  | callLookup
  | callDelete
  | callUpdate
  | readToSym (off : Int) (size : Nat) (src : Nat)
  | bzero (off : Int) (size : Nat)
  | regToSym (r : Nat)
  deriving DecidableEq

/-- Machine state: register file, the stack frame as a byte map indexed
by frame offset, the finalized result of the node being generated
(written by `ir_emit_reg_to_sym`), and the pending forward-jump target
(`skip = some l` while instructions are being skipped up to `label l`;
the emitted streams only ever jump forward). -/
structure St where
  regs : Nat → Int
  stack : Int → Nat
  result : Int
  skip : Option Nat := none

/-- Update one register. -/
def setReg (s : St) (r : Nat) (v : Int) : St :=
  { s with regs := fun i => if i = r then v else s.regs i }

/-- Overwrite the byte range `[off, off+size)` of the stack with the
bytes given by `f` (indexed by absolute offset). -/
def writeBytes (stack : Int → Nat) (off : Int) (size : Nat) (f : Int → Nat) :
    Int → Nat :=
  fun i => if off ≤ i ∧ i < off + (size : Int) then f i else stack i

/-- Executable semantics of an emitted instruction list.  The map-lookup
helper is an oracle: on a hit it returns the address `vaddr` of the
stored value, whose bytes live in the read-only helper memory `heap`;
on a miss it returns 0.  Jumps are forward-only: a taken jump records
its target label and execution skips instructions until that label is
placed. -/
def exec (hit : Bool) (vaddr : Int) (heap : Int → Nat) :
    List Ins → St → St
  | [], s => s
  | ins :: rest, s =>
    match s.skip with
    | some l =>
      match ins with
      | Ins.label l' =>
        exec hit vaddr heap rest (if l' = l then { s with skip := none } else s)
      | _ => exec hit vaddr heap rest s
    | none =>
      match ins with
      | Ins.ldxb r off => exec hit vaddr heap rest (setReg s r (s.stack off))
      | Ins.subImm r imm => exec hit vaddr heap rest (setReg s r (s.regs r - imm))
      | Ins.subReg r r2 => exec hit vaddr heap rest (setReg s r (s.regs r - s.regs r2))
      | Ins.negReg r => exec hit vaddr heap rest (setReg s r (-(s.regs r)))
      | Ins.movImm r v => exec hit vaddr heap rest (setReg s r v)
      | Ins.jeq r imm l =>
        exec hit vaddr heap rest (if s.regs r = imm then { s with skip := some l } else s)
      | Ins.jne r imm l =>
        exec hit vaddr heap rest (if s.regs r ≠ imm then { s with skip := some l } else s)
      | Ins.ja l => exec hit vaddr heap rest { s with skip := some l }
      | Ins.label _ => exec hit vaddr heap rest s
      | Ins.ldmap r m => exec hit vaddr heap rest (setReg s r (m : Int))
      | Ins.ldbp r off => exec hit vaddr heap rest (setReg s r off)
      | Ins.callLookup =>
        exec hit vaddr heap rest (setReg s 0 (if hit then vaddr else 0))
      | Ins.callDelete => exec hit vaddr heap rest (setReg s 0 0)
      | Ins.callUpdate => exec hit vaddr heap rest (setReg s 0 0)
      | Ins.readToSym off size src =>
        exec hit vaddr heap rest
          { s with stack := writeBytes s.stack off size
                     (fun i => heap (s.regs src + (i - off))) }
      | Ins.bzero off size =>
        exec hit vaddr heap rest
          { s with stack := writeBytes s.stack off size (fun _ => 0) }
      | Ins.regToSym r => exec hit vaddr heap rest { s with result := s.regs r }

/-- The byte-comparison loop of `strcmp_emit`: at each position load a
byte of the first operand into `dst` and subtract either the literal's
byte (as an immediate) or a loaded byte of the second operand (via
scratch register 1); on the last byte fall through; otherwise exit to
`done` when the loaded second-operand byte is zero (non-literal) — or
stop unrolling at a zero literal byte — and exit to `done` when the
difference is non-zero. -/
def strcmp_emit_loop (dst done : Nat) :
    Int → Int → Option (List Nat) → Nat → List Ins
  | _, _, _, 0 => []
  | a, b, blit, Nat.succ len =>
    (Ins.ldxb dst a ::
      (match blit with
       | some bl => [Ins.subImm dst ((bl.headD 0 : Nat) : Int)]
       | none => [Ins.ldxb 1 b, Ins.subReg dst 1])) ++
    (if len = 0 then []
     else
       match blit with
       | none =>
         Ins.jeq 1 0 done :: Ins.jne dst 0 done ::
           strcmp_emit_loop dst done (a + 1) (b + 1) none len
       | some bl =>
         if bl.headD 0 = 0 then []
         else
           Ins.jne dst 0 done ::
             strcmp_emit_loop dst done (a + 1) (b + 1) (some bl.tail) len)

/-- `strcmp_emit`: allocate the `done` label (always label 0 here, the
only label this emitter uses), emit the comparison loop, and place
`done` after it. -/
def strcmp_emit (dst : Nat) (a b : Int) (blit : Option (List Nat)) (len : Nat) :
    List Ins :=
  strcmp_emit_loop dst 0 a b blit len ++ [Ins.label 0]

/-- `strcmp_ir_post`: swap the operands when the first is a string
literal (recording `invert`); take the literal fast path when the
second operand (after the swap) is a string literal; `assert` — modelled
as `none` — that the first operand, and the second when not a literal,
are stack-resident; compare `min(sizeof a, sizeof b)` bytes with
`strcmp_emit` into the node's register (or register 0); negate the
result when the operands were swapped; finalize the node's storage. -/
def strcmp_ir_post (n : Node) : Option (List Ins) :=
  match n.args with
  | aArg :: bArg :: _ =>
    let swap := aArg.isString
    let a := if swap then bArg else aArg
    let b := if swap then aArg else bArg
    let blit : Option (List Nat) := if b.isString then some b.stringData else none
    if !sym_on_stack a.sym then none
    else if blit.isNone && !sym_on_stack b.sym then none
    else
      let len := (min (type_sizeof_opt a.sym.type) (type_sizeof_opt b.sym.type)).toNat
      let dst := if sym_in_reg n.sym then n.sym.irs.reg else 0
      some (strcmp_emit dst a.sym.irs.stack b.sym.irs.stack blit len ++
            (if swap then [Ins.negReg dst] else []) ++
            [Ins.regToSym dst])
  | _ => none

/-- The comparison value the emitted loop computes: scan both sequences
in lockstep; at the first position where the bytes differ or the
second sequence's byte is zero — or at the final position — the result
is the byte difference there (null-terminated `strcmp` semantics). -/
def cmpBytes : List Nat → List Nat → Int
  | x :: xs, y :: ys =>
    if xs = [] ∨ ys = [] then (x : Int) - (y : Int)
    else if x ≠ y ∨ y = 0 then (x : Int) - (y : Int)
    else cmpBytes xs ys
  | _, _ => 0

/-- `subscript_ir_post_map`: force the node onto the stack; when the
parent node is the assignment operator skip the load entirely;
otherwise call the map-lookup helper on the key's stack storage and
branch on its result: on a hit (non-zero return) copy the stored value
into the node's storage and jump over the miss arm; on a miss zero-fill
the node's storage.  Label 0 is `lmiss`, label 1 is `lhit`.  The parent
pointer `n->up` is passed explicitly as `up`; the map handle resolved
by `ir_emit_ldmap` is `mapId`. -/
def subscript_ir_post_map (n : Node) (up : Node) (mapId : Nat) : List Ins :=
  match n.args with
  | _map :: key :: _ =>
    let stack := key.sym.irs.stack
    if node_is up "=" then []
    else
      [Ins.ldmap 1 mapId, Ins.ldbp 2 stack, Ins.callLookup,
       Ins.jeq 0 0 0, Ins.readToSym n.sym.irs.stack n.sym.irs.size 0, Ins.ja 1,
       Ins.label 0, Ins.bzero n.sym.irs.stack n.sym.irs.size, Ins.label 1]
  | _ => []

/-- `delete_ir_pre`: mark the subscript operand as an lvalue (about to
be overwritten) and stack-resident.  Emits nothing. -/
def delete_ir_pre (n : Node) : Node :=
  match n with
  | Node.expr f (arg :: rest) sym =>
    Node.expr f
      (arg.withSym { arg.sym with irs := { arg.sym.irs with hint :=
        { arg.sym.irs.hint with lval := true, stack := true } } } :: rest) sym
  | _ => n

/-- `delete_ir_post`: load the map handle and the key's stack address
and call the map-delete helper; the map and key are the subscript
operand's two arguments. -/
def delete_ir_post (n : Node) (mapId : Nat) : List Ins :=
  match n.args with
  | sub :: _ =>
    match sub.args with
    | _map :: key :: _ =>
      [Ins.ldmap 1 mapId, Ins.ldbp 2 key.sym.irs.stack, Ins.callDelete]
    | _ => []
  | _ => []

/-- The full instruction stream generated for a `delete` node by the
depth-first codegen walk: `delete_ir_pre` (hints only), then the
subscript child's post-order hook with the `delete` node as its parent,
then `delete_ir_post`. -/
def delete_codegen (n : Node) (mapId : Nat) : List Ins :=
  let n' := delete_ir_pre n
  match n'.args with
  | sub :: _ => subscript_ir_post_map sub n' mapId ++ delete_ir_post n' mapId
  | _ => []

/-- The inter-field zero-fills of `struct_ir_pre`'s field loop: for each
field (given as its byte offset and size, as resolved by the external
`type_offsetof`/`type_sizeof`) that has a successor field, zero-fill
the gap `[offset+size, next offset)` when it is non-empty. -/
def interPads (stack : Int) : List (Nat × Nat) → List Ins
  | (o1, s1) :: (o2, s2) :: rest =>
    (if o2 - (o1 + s1) ≠ 0 then
       [Ins.bzero (stack + ((o1 + s1 : Nat) : Int)) (o2 - (o1 + s1))]
     else []) ++ interPads stack ((o2, s2) :: rest)
  | _ => []

/-- The zero-fill instructions emitted by `struct_ir_pre` for a struct
literal whose synthesized struct type has the given total size `sz` and
fields at the given (offset, size) pairs, laid out at stack offset
`stack`: the inter-field pads of the loop, then the trailing pad
`[last offset + last size, sz)` when non-empty (with offset and size 0
when there are no fields, as in the C where the loop never runs). -/
def struct_ir_pre_emit (stack : Int) (sz : Nat) (fs : List (Nat × Nat)) :
    List Ins :=
  let last := fs.getLast?.getD (0, 0)
  interPads stack fs ++
    (if sz - (last.1 + last.2) ≠ 0 then
       [Ins.bzero (stack + ((last.1 + last.2 : Nat) : Int)) (sz - (last.1 + last.2))]
     else [])

/-- A byte address is covered by some `bzero` of the instruction list. -/
def coversB (l : List Ins) (addr : Int) : Bool :=
  l.any fun i =>
    match i with
    | Ins.bzero off size => decide (off ≤ addr ∧ addr < off + (size : Int))
    | _ => false

/-- A byte (relative to the struct base) lies inside one of the fields. -/
def inFieldB (fs : List (Nat × Nat)) (z : Int) : Bool :=
  fs.any fun p => decide ((p.1 : Int) ≤ z ∧ z < (p.1 : Int) + (p.2 : Int))

/-- C1: the claim says every type-infer hook is a no-op on a node whose
symbol is already typed, so that re-running inference on a fully-typed
graph (struct-literal nodes included) performs zero mutations.  The
guard holds for `strcmp_type_infer` (last conjunct), but
`struct_type_infer` has no such guard: invoked on an already-typed
struct-literal node it synthesizes a fresh anonymous struct type and
registers it again through `type_add`, growing the type registry — a
mutation on every re-run. -/
theorem C1_struct_type_infer_not_idempotent :
    (struct_type_infer
        [Ty.tstruct ":anon" [("f0", t_int), ("f1", t_char)]]
        (Node.expr ":struct"
          [Node.num 1 { type := some t_int }, Node.num 2 { type := some t_char }]
          { type := some (Ty.tstruct ":anon" [("f0", t_int), ("f1", t_char)]) })).registry.length
      = 2 ∧
    (struct_type_infer
        [Ty.tstruct ":anon" [("f0", t_int), ("f1", t_char)]]
        (Node.expr ":struct"
          [Node.num 1 { type := some t_int }, Node.num 2 { type := some t_char }]
          { type := some (Ty.tstruct ":anon" [("f0", t_int), ("f1", t_char)]) })).registry
      = [Ty.tstruct ":anon" [("f0", t_int), ("f1", t_char)],
         Ty.tstruct ":anon" [("f0", t_int), ("f1", t_char)]] ∧
    strcmp_type_infer
        (Node.expr "strcmp"
          [Node.expr "x" [] { type := some (type_array_of t_char 4) },
           Node.expr "y" [] { type := some (type_array_of t_char 4) }]
          { type := some t_int })
      = ⟨0,
         Node.expr "strcmp"
          [Node.expr "x" [] { type := some (type_array_of t_char 4) },
           Node.expr "y" [] { type := some (type_array_of t_char 4) }]
          { type := some t_int }, []⟩ := by
  exact ⟨rfl, rfl, rfl⟩

/-- C2 counterexample: a `strcmp` node whose first operand is a
non-string (integer-typed) expression.  The claim says inference "fails
with a type error"; in fact `strcmp_type_infer` returns success (0),
emits only a warning (`_nw`), and assigns the signed integer result
type anyway. -/
theorem C2_counterexample :
    (strcmp_type_infer
        (Node.expr "strcmp"
          [Node.expr "x" [] { type := some t_int },
           Node.expr "y" [] { type := some (type_array_of t_char 8) }]
          {})).ret = 0 ∧
    (strcmp_type_infer
        (Node.expr "strcmp"
          [Node.expr "x" [] { type := some t_int },
           Node.expr "y" [] { type := some (type_array_of t_char 8) }]
          {})).diags = [Diag.warn] ∧
    Diag.err ∉ (strcmp_type_infer
        (Node.expr "strcmp"
          [Node.expr "x" [] { type := some t_int },
           Node.expr "y" [] { type := some (type_array_of t_char 8) }]
          {})).diags ∧
    (strcmp_type_infer
        (Node.expr "strcmp"
          [Node.expr "x" [] { type := some t_int },
           Node.expr "y" [] { type := some (type_array_of t_char 8) }]
          {})).node.sym.type = some t_int ∧
    type_is_string t_int = false := by
  refine ⟨rfl, rfl, by decide, rfl, rfl⟩

/-- C2 amended: once both operand types of a `strcmp` node are known,
type inference always succeeds with status 0 and assigns the signed
integer result type; an operand that is neither a string literal nor
string-typed elicits a warning diagnostic — never an error — and
string-typed or literal operands elicit nothing. -/
theorem C2_strcmp_infer_warns_not_fails
    (f : String) (s0 s1 : Node) (rest : List Node) (sym : Symb)
    (h : sym.type = none)
    (h0 : s0.sym.type.isSome = true) (h1 : s1.sym.type.isSome = true) :
    (strcmp_type_infer (Node.expr f (s0 :: s1 :: rest) sym)).ret = 0 ∧
    (strcmp_type_infer (Node.expr f (s0 :: s1 :: rest) sym)).node.sym.type
      = some t_int ∧
    (strcmp_type_infer (Node.expr f (s0 :: s1 :: rest) sym)).diags
      = (if s0.isString = true ∨ type_is_string (s0.sym.type.getD t_void) = true
         then [] else [Diag.warn]) ++
        (if s1.isString = true ∨ type_is_string (s1.sym.type.getD t_void) = true
         then [] else [Diag.warn]) ∧
    Diag.err ∉ (strcmp_type_infer (Node.expr f (s0 :: s1 :: rest) sym)).diags := by
  have hnone : sym.type.isSome = false := by simp [h]
  have hd0 : (strcmp_check_arg s0).2
      = if s0.isString = true ∨ type_is_string (s0.sym.type.getD t_void) = true
        then [] else [Diag.warn] := by
    by_cases c : s0.isString = true <;>
      by_cases c' : type_is_string (s0.sym.type.getD t_void) = true <;>
        simp [strcmp_check_arg, c, c']
  have hd1 : (strcmp_check_arg s1).2
      = if s1.isString = true ∨ type_is_string (s1.sym.type.getD t_void) = true
        then [] else [Diag.warn] := by
    by_cases c : s1.isString = true <;>
      by_cases c' : type_is_string (s1.sym.type.getD t_void) = true <;>
        simp [strcmp_check_arg, c, c']
  have heq : strcmp_type_infer (Node.expr f (s0 :: s1 :: rest) sym)
      = ⟨0,
         Node.expr f ((strcmp_check_arg s0).1 :: (strcmp_check_arg s1).1 :: rest)
           { sym with type := some t_int },
         (strcmp_check_arg s0).2 ++ (strcmp_check_arg s1).2⟩ := by
    simp [strcmp_type_infer, hnone, h0, h1]
  refine ⟨by rw [heq], by rw [heq]; rfl, ?_, ?_⟩
  · rw [heq, hd0, hd1]
  · rw [heq, hd0, hd1]
    split <;> split <;> simp

/-- C5 counterexample: an assignment whose left-hand side is a
subscript of an array-typed symbol — not a map subscript.  The claim
says static validation succeeds only for map subscripts; in fact
`assign_static_validate` accepts it (it only tests that the node is a
`[]` expression, a check that is independent of — and therefore blind
to — the subscripted operand's type). -/
theorem C5_counterexample :
    (assign_static_validate
        (Node.expr "="
          [Node.expr "[]"
            [Node.expr "a" [] { type := some (type_array_of t_char 8) },
             Node.num 0 { type := some t_int }] {},
           Node.num 1 { type := some t_int }] {})).1 = 0 ∧
    is_map_subscript
        (Node.expr "[]"
          [Node.expr "a" [] { type := some (type_array_of t_char 8) },
           Node.num 0 { type := some t_int }] {}) = false := by
  exact ⟨rfl, rfl⟩

/-- C5 amended: static validation of an assignment succeeds iff the
left-hand side is a subscript (`[]`) expression — whether it subscripts
a map is not (and, being type-independent, cannot be) checked here —
and a non-subscript left-hand side is rejected with a structural error
diagnostic and `-EINVAL`. -/
theorem C5_assign_static_validate_iff
    (f : String) (lval : Node) (rest : List Node) (sym : Symb) :
    ((assign_static_validate (Node.expr f (lval :: rest) sym)).1 = 0
       ↔ node_is lval "[]" = true) ∧
    ((assign_static_validate (Node.expr f (lval :: rest) sym)).1 = EINVAL_NEG
       ↔ node_is lval "[]" = false) ∧
    ((assign_static_validate (Node.expr f (lval :: rest) sym)).2
       = if node_is lval "[]" then [] else [Diag.err]) := by
  by_cases hc : node_is lval "[]" = true <;>
    simp_all [assign_static_validate, Node.args, EINVAL_NEG]

/-- C6: when a subscript node used as an assignment target has received
its type by downward inference while the subscripted symbol is still
untyped (and the key's type is known), `subscript_type_infer` takes the
downward path and types the subscripted symbol as the map from the key
type to the propagated value type with hash-table backing
(`BPF_MAP_TYPE_HASH`); afterwards any other untyped subscript of the
now-typed map symbol infers that fixed value type through the upward
path, and re-running the hook on the fully-typed assignment site
performs no further mutation. -/
theorem C6_map_materialization
    (f f2 : String) (src key src2 key2 : Node) (r r2 : List Node)
    (sym sym2 : Symb) (kt vt kt2 : Ty)
    (hkey : key.sym.type = some kt) (hn : sym.type = some vt)
    (hsrc : src.sym.type = none)
    (hsrc2 : src2.sym.type = some (type_map_of kt vt BPF_MAP_TYPE_HASH 0))
    (hkey2 : key2.sym.type = some kt2) (hsym2 : sym2.type = none) :
    (subscript_type_infer (Node.expr f (src :: key :: r) sym)).ret = 0 ∧
    (subscript_type_infer (Node.expr f (src :: key :: r) sym)).node
      = Node.expr f
          (src.withSym { src.sym with
             type := some (type_map_of kt vt BPF_MAP_TYPE_HASH 0) } :: key :: r)
          sym ∧
    (subscript_type_infer (Node.expr f2 (src2 :: key2 :: r2) sym2)).node.sym.type
      = some vt ∧
    subscript_type_infer
        (Node.expr f
          (src.withSym { src.sym with
             type := some (type_map_of kt vt BPF_MAP_TYPE_HASH 0) } :: key :: r)
          sym)
      = ⟨0,
         Node.expr f
          (src.withSym { src.sym with
             type := some (type_map_of kt vt BPF_MAP_TYPE_HASH 0) } :: key :: r)
          sym, []⟩ := by
  refine ⟨?_, ?_, ?_, ?_⟩
  · simp [subscript_type_infer, hkey, hn, hsrc, subscript_type_infer_down]
  · simp [subscript_type_infer, hkey, hn, hsrc, subscript_type_infer_down, hkey]
  · have heq : subscript_type_infer (Node.expr f2 (src2 :: key2 :: r2) sym2)
        = subscript_type_infer_up (Node.expr f2 (src2 :: key2 :: r2) sym2) := by
      simp [subscript_type_infer, hkey2, hsym2, hsrc2]
    rw [heq]
    simp only [subscript_type_infer_up]
    rw [hsrc2]
    simp [type_map_of, type_base, Node.sym]
  · have : (src.withSym { src.sym with
        type := some (type_map_of kt vt BPF_MAP_TYPE_HASH 0) }).sym.type
        = some (type_map_of kt vt BPF_MAP_TYPE_HASH 0) := by
      cases src <;> simp [Node.withSym, Node.sym]
    simp [subscript_type_infer, hkey, hn, this]

/-- C6 witness: the map materialization theorem applied at a concrete
assignment site `@m[k] = v` with an integer key and an integer value. -/
theorem C6_map_materialization_witness :
    (subscript_type_infer
        (Node.expr "[]"
          [Node.expr "m" [] {}, Node.expr "k" [] { type := some t_int }]
          { type := some t_int })).node
      = Node.expr "[]"
          [Node.expr "m" [] { type := some (type_map_of t_int t_int BPF_MAP_TYPE_HASH 0) },
           Node.expr "k" [] { type := some t_int }]
          { type := some t_int } ∧
    (subscript_type_infer
        (Node.expr "[]"
          [Node.expr "m2" [] { type := some (type_map_of t_int t_int BPF_MAP_TYPE_HASH 0) },
           Node.expr "k2" [] { type := some t_int }] {})).node.sym.type
      = some t_int := by
  have h := C6_map_materialization "[]" "[]"
    (Node.expr "m" [] {}) (Node.expr "k" [] { type := some t_int })
    (Node.expr "m2" [] { type := some (type_map_of t_int t_int BPF_MAP_TYPE_HASH 0) })
    (Node.expr "k2" [] { type := some t_int }) [] []
    { type := some t_int } {} t_int t_int t_int
    rfl rfl rfl rfl rfl rfl
  exact ⟨h.2.1, h.2.2.1⟩

/-- C7 counterexample: when the pointer operand of `->` is not a plain
identifier — here the chained access `(*q).n`, exactly what the inner
rewrite of `p->n->f` produces — `struct_deref_rewrite` rebuilds the
pointer operand as a bare identifier named after the operand's operator
(`"."`), dropping its argument subtree, so the replacement is not
`(*p).m` as the claim states. -/
theorem C7_counterexample :
    struct_deref_rewrite
        (node_expr "->"
          [node_expr "." [node_expr "u*" [node_expr_ident "q"], node_string [110]],
           node_string [102]])
      ≠ deref_dot_direct
          (node_expr "." [node_expr "u*" [node_expr_ident "q"], node_string [110]])
          [102] := by
  intro h
  have h2 := congrArg
    (fun nd => ((nd.args.headD (node_expr "" [])).args.headD
        (node_expr "" [])).args.length) h
  exact absurd h2 (by decide)

/-- C7 amended: for a pointer-to-struct operand that is a plain
identifier `p` (the only shape `struct_deref_rewrite` reconstructs
faithfully, since it rebuilds the operand via `node_expr_ident` from
`sou->expr.func`), the rewrite of `p->m` yields exactly the subtree
obtained by writing `(*p).m` directly; the two being one and the same
node, every later stage — type inference and instruction emission —
treats them identically. -/
theorem C7_rewrite_equivalence (f : String) (m : List Nat) :
    struct_deref_rewrite (node_expr "->" [node_expr_ident f, node_string m])
      = deref_dot_direct (node_expr_ident f) m := rfl

/-- C10: `strcmp` codegen requires each non-literal operand to be
stack-resident: if the first operand (after any literal swap) is not on
the stack, or the second operand is neither a string literal nor on the
stack, `strcmp_ir_post` hits an `assert` (modelled as `none`) — a fatal
abort that emits no user-facing diagnostic (the hook calls `_ne`/`_nw`
nowhere). -/
theorem C10_strcmp_fatal_assert
    (f : String) (aArg bArg : Node) (rest : List Node) (sym : Symb)
    (h : sym_on_stack (if aArg.isString then bArg else aArg).sym = false
       ∨ ((if aArg.isString then aArg else bArg).isString = false
           ∧ sym_on_stack (if aArg.isString then aArg else bArg).sym = false)) :
    strcmp_ir_post (Node.expr f (aArg :: bArg :: rest) sym) = none := by
  unfold strcmp_ir_post
  simp only [Node.args]
  rcases h with h | ⟨hb1, hb2⟩
  · simp [h]
  · simp [hb1, hb2]

/-- C10 witness: a `strcmp` whose first operand sits in a register
(not on the stack) aborts fatally. -/
theorem C10_strcmp_fatal_assert_witness :
    strcmp_ir_post
        (Node.expr "strcmp"
          [Node.expr "x" [] { type := some (type_array_of t_char 4),
                              irs := { loc := Loc.reg, reg := 6 } },
           Node.expr "y" [] { type := some (type_array_of t_char 4),
                              irs := { loc := Loc.stack, stack := 8 } }] {})
      = none := by
  exact C10_strcmp_fatal_assert "strcmp"
    (Node.expr "x" [] { type := some (type_array_of t_char 4),
                        irs := { loc := Loc.reg, reg := 6 } })
    (Node.expr "y" [] { type := some (type_array_of t_char 4),
                        irs := { loc := Loc.stack, stack := 8 } })
    [] {} (Or.inl rfl)

/-- C4: for a map subscript whose parent is not the assignment
operator, the emitted code calls the map-lookup helper and branches on
its result: on a hit every byte of the node's storage is copied from
the stored value, on a miss every byte is zero-filled — an absent key
reads as the value type's zero representation, never an error.  The
last conjunct is the divergence that makes the claim as stated false:
the load is suppressed for *any* subscript whose parent is the `=`
node, including one appearing as the assignment's right-hand side
(`@a[x] = @b[y]`), which is a read and not the target — for such a
node nothing at all is emitted. -/
theorem C4_map_subscript_read
    (mapN keyN up : Node) (rest args2 : List Node) (sym sym2 : Symb) (mid : Nat)
    (hit : Bool) (vaddr : Int) (heap : Int → Nat) (s0 : St)
    (hup : node_is up "=" = false)
    (hskip : s0.skip = none)
    (hvaddr : vaddr ≠ 0) :
    Ins.callLookup
      ∈ subscript_ir_post_map (Node.expr "[]" (mapN :: keyN :: rest) sym) up mid ∧
    (∀ j : Nat, j < sym.irs.size →
      (exec hit vaddr heap
          (subscript_ir_post_map (Node.expr "[]" (mapN :: keyN :: rest) sym) up mid)
          s0).stack (sym.irs.stack + (j : Int))
        = if hit then heap (vaddr + (j : Int)) else 0) ∧
    subscript_ir_post_map (Node.expr "[]" (mapN :: keyN :: rest) sym)
        (Node.expr "=" args2 sym2) mid = [] := by
  have hprog : subscript_ir_post_map (Node.expr "[]" (mapN :: keyN :: rest) sym) up mid
      = [Ins.ldmap 1 mid, Ins.ldbp 2 keyN.sym.irs.stack, Ins.callLookup,
         Ins.jeq 0 0 0, Ins.readToSym sym.irs.stack sym.irs.size 0, Ins.ja 1,
         Ins.label 0, Ins.bzero sym.irs.stack sym.irs.size, Ins.label 1] := by
    simp [subscript_ir_post_map, Node.args, hup, Node.sym]
  refine ⟨by rw [hprog]; simp, ?_, by simp [subscript_ir_post_map, node_is, Node.args]⟩
  intro j hj
  have hb1 : sym.irs.stack ≤ sym.irs.stack + (j : Int) := by omega
  have hb2 : sym.irs.stack + (j : Int) < sym.irs.stack + ((sym.irs.size : Nat) : Int) := by
    omega
  have harith : sym.irs.stack + (j : Int) - sym.irs.stack = (j : Int) := by ring
  rw [hprog]
  cases hit with
  | true =>
    simp only [exec, hskip, setReg, if_true, if_false]
    simp [hvaddr, writeBytes, hb1, hb2, harith]
  | false =>
    simp only [exec, hskip, setReg, if_true, if_false]
    simp [writeBytes, hb1, hb2]

/-- C4 witness: the map-subscript read theorem at a concrete node
(key on the stack at offset 16, value storage at offset 24, size 8),
evaluated on a hit whose stored value lives at helper address 1000. -/
theorem C4_map_subscript_read_witness :
    (exec true 1000 (fun i => (i - 1000).toNat)
        (subscript_ir_post_map
          (Node.expr "[]"
            [Node.expr "m" [] { type := some (type_map_of t_int t_int BPF_MAP_TYPE_HASH 0) },
             Node.expr "k" [] { irs := { loc := Loc.stack, stack := 16, size := 8 } }]
            { irs := { loc := Loc.stack, stack := 24, size := 8 } })
          (Node.expr "delete" [] {}) 5)
        { regs := fun _ => 0, stack := fun _ => 0, result := 0 }).stack (24 + (3 : Int))
      = if true then (fun i => (i - 1000 : Int).toNat) (1000 + (3 : Int)) else 0 := by
  exact (C4_map_subscript_read
    (Node.expr "m" [] { type := some (type_map_of t_int t_int BPF_MAP_TYPE_HASH 0) })
    (Node.expr "k" [] { irs := { loc := Loc.stack, stack := 16, size := 8 } })
    (Node.expr "delete" [] {}) [] []
    { irs := { loc := Loc.stack, stack := 24, size := 8 } } {} 5
    true 1000 (fun i => (i - 1000).toNat)
    { regs := fun _ => 0, stack := fun _ => 0, result := 0 }
    rfl rfl (by decide)).2.1 3 (by decide)

/-- C8: the claim says the code generated for `delete m[k]` does not
read the map's value.  The map-delete call itself (`delete_ir_post`,
last two conjuncts) matches the claim: it uses the key's stack storage
and never touches the value.  But the full generated stream (first two
conjuncts) also contains the subscript child's own post-order code,
and `subscript_ir_post_map` only suppresses its value load when the
parent is the `=` operator — not when it is `delete` — so a map-lookup
call plus a hit-copy/miss-zero-fill of the value are emitted, even
though `delete_ir_pre` sets the `lval` hint precisely to mark that the
child's value is dead. -/
theorem C8_delete_emits_value_load :
    delete_codegen
        (Node.expr "delete"
          [Node.expr "[]"
            [Node.expr "m" [] { type := some (type_map_of t_int t_int BPF_MAP_TYPE_HASH 0) },
             Node.expr "k" [] { type := some t_int,
                                irs := { loc := Loc.stack, stack := 16, size := 8 } }]
            { type := some t_int, irs := { loc := Loc.stack, stack := 24, size := 8 } }]
          {}) 7
      = [Ins.ldmap 1 7, Ins.ldbp 2 16, Ins.callLookup,
         Ins.jeq 0 0 0, Ins.readToSym 24 8 0, Ins.ja 1,
         Ins.label 0, Ins.bzero 24 8, Ins.label 1,
         Ins.ldmap 1 7, Ins.ldbp 2 16, Ins.callDelete] ∧
    Ins.callLookup
      ∈ delete_codegen
          (Node.expr "delete"
            [Node.expr "[]"
              [Node.expr "m" [] { type := some (type_map_of t_int t_int BPF_MAP_TYPE_HASH 0) },
               Node.expr "k" [] { type := some t_int,
                                  irs := { loc := Loc.stack, stack := 16, size := 8 } }]
              { type := some t_int, irs := { loc := Loc.stack, stack := 24, size := 8 } }]
            {}) 7 ∧
    delete_ir_post
        (delete_ir_pre
          (Node.expr "delete"
            [Node.expr "[]"
              [Node.expr "m" [] { type := some (type_map_of t_int t_int BPF_MAP_TYPE_HASH 0) },
               Node.expr "k" [] { type := some t_int,
                                  irs := { loc := Loc.stack, stack := 16, size := 8 } }]
              { type := some t_int, irs := { loc := Loc.stack, stack := 24, size := 8 } }]
            {})) 7
      = [Ins.ldmap 1 7, Ins.ldbp 2 16, Ins.callDelete] ∧
    Ins.callLookup
      ∉ delete_ir_post
          (delete_ir_pre
            (Node.expr "delete"
              [Node.expr "[]"
                [Node.expr "m" [] { type := some (type_map_of t_int t_int BPF_MAP_TYPE_HASH 0) },
                 Node.expr "k" [] { type := some t_int,
                                    irs := { loc := Loc.stack, stack := 16, size := 8 } }]
                { type := some t_int, irs := { loc := Loc.stack, stack := 24, size := 8 } }]
              {})) 7 := by
  exact ⟨rfl, by decide, rfl, by decide⟩

/-- C3 counterexample: two equal-length operands `A = [0, 1]` and
`B = [0, 2]` that are not byte-identical, yet the emitted comparison
evaluates to 0: the loop exits through the `BPF_JEQ` test on B's zero
byte before ever reaching the differing byte (null-terminated
semantics), refuting "evaluates to 0 iff A and B are byte-identical". -/
theorem C3_counterexample :
    ((strcmp_ir_post
        (Node.expr "strcmp"
          [Node.expr "A" [] { type := some (type_array_of t_char 2),
                              irs := { loc := Loc.stack, stack := 0 } },
           Node.expr "B" [] { type := some (type_array_of t_char 2),
                              irs := { loc := Loc.stack, stack := 100 } }] {})).map
      (fun prog => (exec false 0 (fun _ => 0) prog
        { regs := fun _ => 0,
          stack := fun i => if i = 1 then 1 else if i = 101 then 2 else 0,
          result := 0 }).result)) = some 0 ∧
    ([0, 1] : List Nat) ≠ [0, 2] ∧
    cmpBytes [0, 1] [0, 2] = 0 := by
  exact ⟨rfl, by decide, rfl⟩

/-- One execution step: byte load. -/
theorem exec_ldxb (hit : Bool) (vaddr : Int) (heap : Int → Nat)
    (r : Nat) (off : Int) (tl : List Ins) (s : St) (hs : s.skip = none) :
    exec hit vaddr heap (Ins.ldxb r off :: tl) s
      = exec hit vaddr heap tl (setReg s r (s.stack off)) := by
  simp [exec, hs]

/-- One execution step: subtract immediate. -/
theorem exec_subImm (hit : Bool) (vaddr : Int) (heap : Int → Nat)
    (r : Nat) (imm : Int) (tl : List Ins) (s : St) (hs : s.skip = none) :
    exec hit vaddr heap (Ins.subImm r imm :: tl) s
      = exec hit vaddr heap tl (setReg s r (s.regs r - imm)) := by
  simp [exec, hs]

/-- One execution step: subtract register. -/
theorem exec_subReg (hit : Bool) (vaddr : Int) (heap : Int → Nat)
    (r r2 : Nat) (tl : List Ins) (s : St) (hs : s.skip = none) :
    exec hit vaddr heap (Ins.subReg r r2 :: tl) s
      = exec hit vaddr heap tl (setReg s r (s.regs r - s.regs r2)) := by
  simp [exec, hs]

/-- One execution step: negate. -/
theorem exec_negReg (hit : Bool) (vaddr : Int) (heap : Int → Nat)
    (r : Nat) (tl : List Ins) (s : St) (hs : s.skip = none) :
    exec hit vaddr heap (Ins.negReg r :: tl) s
      = exec hit vaddr heap tl (setReg s r (-(s.regs r))) := by
  simp [exec, hs]

/-- One execution step: conditional jump-if-equal. -/
theorem exec_jeq (hit : Bool) (vaddr : Int) (heap : Int → Nat)
    (r : Nat) (imm : Int) (l : Nat) (tl : List Ins) (s : St) (hs : s.skip = none) :
    exec hit vaddr heap (Ins.jeq r imm l :: tl) s
      = exec hit vaddr heap tl
          (if s.regs r = imm then { s with skip := some l } else s) := by
  simp [exec, hs]

/-- One execution step: conditional jump-if-not-equal. -/
theorem exec_jne (hit : Bool) (vaddr : Int) (heap : Int → Nat)
    (r : Nat) (imm : Int) (l : Nat) (tl : List Ins) (s : St) (hs : s.skip = none) :
    exec hit vaddr heap (Ins.jne r imm l :: tl) s
      = exec hit vaddr heap tl
          (if s.regs r ≠ imm then { s with skip := some l } else s) := by
  simp [exec, hs]

/-- One execution step: a label is a no-op when nothing is skipped. -/
theorem exec_label_none (hit : Bool) (vaddr : Int) (heap : Int → Nat)
    (l : Nat) (tl : List Ins) (s : St) (hs : s.skip = none) :
    exec hit vaddr heap (Ins.label l :: tl) s = exec hit vaddr heap tl s := by
  simp [exec, hs]

/-- One execution step: a matching label ends skipping. -/
theorem exec_label_clear (hit : Bool) (vaddr : Int) (heap : Int → Nat)
    (l : Nat) (tl : List Ins) (s : St) (hs : s.skip = some l) :
    exec hit vaddr heap (Ins.label l :: tl) s
      = exec hit vaddr heap tl { s with skip := none } := by
  simp [exec, hs]

/-- One execution step: result finalization. -/
theorem exec_regToSym (hit : Bool) (vaddr : Int) (heap : Int → Nat)
    (r : Nat) (tl : List Ins) (s : St) (hs : s.skip = none) :
    exec hit vaddr heap (Ins.regToSym r :: tl) s
      = exec hit vaddr heap tl { s with result := s.regs r } := by
  simp [exec, hs]

/-- While skipping to label `l`, any instruction other than `label l`
is passed over without effect. -/
theorem exec_skip_step (hit : Bool) (vaddr : Int) (heap : Int → Nat)
    (i : Ins) (tl : List Ins) (s : St) (l : Nat)
    (hs : s.skip = some l) (hi : i ≠ Ins.label l) :
    exec hit vaddr heap (i :: tl) s = exec hit vaddr heap tl s := by
  cases i <;> simp_all [exec]

/-- While skipping to label `l`, a whole label-free prefix is passed
over without effect. -/
theorem exec_skip_through (hit : Bool) (vaddr : Int) (heap : Int → Nat) (l : Nat) :
    ∀ (prog rest : List Ins) (s : St), s.skip = some l →
      Ins.label l ∉ prog →
      exec hit vaddr heap (prog ++ rest) s = exec hit vaddr heap rest s := by
  intro prog
  induction prog with
  | nil => intro rest s _ _; rfl
  | cons i tl ih =>
    intro rest s hs hn
    rw [List.cons_append,
      exec_skip_step hit vaddr heap i (tl ++ rest) s l hs
        (fun he => hn (by rw [he]; exact List.mem_cons_self _ _))]
    exact ih rest s hs (fun hm => hn (List.mem_cons_of_mem _ hm))

/-- The comparison loop emits no labels (its only label, `done`, is
placed after it by `strcmp_emit`). -/
theorem strcmp_loop_no_label (l dst done : Nat) :
    ∀ (len : Nat) (a b : Int) (blit : Option (List Nat)),
      Ins.label l ∉ strcmp_emit_loop dst done a b blit len := by
  intro len
  induction len with
  | zero => intro a b blit; simp [strcmp_emit_loop]
  | succ n ih =>
    intro a b blit
    cases blit with
    | none =>
      by_cases hn : n = 0 <;> simp [strcmp_emit_loop, hn, ih]
    | some bl =>
      by_cases hn : n = 0
      · simp [strcmp_emit_loop, hn]
      · by_cases hz : bl.headD 0 = 0 <;> simp [strcmp_emit_loop, hn, hz, ih]

@[simp]
theorem setReg_stack (s : St) (r : Nat) (v : Int) : (setReg s r v).stack = s.stack := rfl

@[simp]
theorem setReg_skip (s : St) (r : Nat) (v : Int) : (setReg s r v).skip = s.skip := rfl

@[simp]
theorem setReg_result (s : St) (r : Nat) (v : Int) : (setReg s r v).result = s.result := rfl

@[simp]
theorem setReg_regs_self (s : St) (r : Nat) (v : Int) : (setReg s r v).regs r = v := by
  simp [setReg]

theorem setReg_regs_ne (s : St) (r r' : Nat) (v : Int) (h : r' ≠ r) :
    (setReg s r v).regs r' = s.regs r' := by
  simp [setReg, h]

/-- Running the non-literal comparison loop emitted by `strcmp_emit`
over operand bytes `A` (at stack offset `a`) and `B` (at stack offset
`b`) leaves `cmpBytes A B` in `dst`, touches neither the stack nor the
result, and either falls through or is skipping to the `done` label
(label 0). -/
theorem strcmp_loop_nonlit (hit : Bool) (vaddr : Int) (heap : Int → Nat)
    (dst : Nat) (hdst : dst ≠ 1) :
    ∀ (A B : List Nat) (a b : Int) (rest : List Ins) (s : St),
      s.skip = none → A ≠ [] → A.length = B.length →
      (∀ i : Nat, i < A.length → s.stack (a + (i : Int)) = A.getD i 0) →
      (∀ i : Nat, i < B.length → s.stack (b + (i : Int)) = B.getD i 0) →
      ∃ s' : St,
        exec hit vaddr heap (strcmp_emit_loop dst 0 a b none A.length ++ rest) s
          = exec hit vaddr heap rest s' ∧
        s'.regs dst = cmpBytes A B ∧
        s'.stack = s.stack ∧ s'.result = s.result ∧
        (s'.skip = none ∨ s'.skip = some 0) := by
  have h1d : (1 : Nat) ≠ dst := Ne.symm hdst
  intro A
  induction A with
  | nil => intro B a b rest s _ hne; exact absurd rfl hne
  | cons x xs ih =>
    intro B a b rest s hskip _ hlen hA hB
    cases B with
    | nil => simp at hlen
    | cons y ys =>
      have hx : s.stack a = x := by simpa using hA 0 (by simp)
      have hy : s.stack b = y := by simpa using hB 0 (by simp)
      cases xs with
      | nil =>
        cases ys with
        | cons y2 ys2 => simp at hlen
        | nil =>
          have e1 : strcmp_emit_loop dst 0 a b none (List.length [x])
              = [Ins.ldxb dst a, Ins.ldxb 1 b, Ins.subReg dst 1] := by
            simp [strcmp_emit_loop]
          rw [e1]
          simp only [List.cons_append, List.nil_append, exec_ldxb, exec_subReg,
            setReg_skip, setReg_stack, setReg_regs_self, setReg_regs_ne,
            hskip, hx, hy, h1d, hdst, ne_eq, not_false_eq_true]
          refine ⟨_, rfl, ?_, by simp, by simp, Or.inl hskip⟩
          simp [cmpBytes]
      | cons x2 xs2 =>
        cases ys with
        | nil => simp at hlen
        | cons y2 ys2 =>
          have e1 : strcmp_emit_loop dst 0 a b none (List.length (x :: x2 :: xs2))
              = Ins.ldxb dst a :: Ins.ldxb 1 b :: Ins.subReg dst 1 ::
                Ins.jeq 1 0 0 :: Ins.jne dst 0 0 ::
                strcmp_emit_loop dst 0 (a + 1) (b + 1) none (x2 :: xs2).length := by
            simp [strcmp_emit_loop]
          rw [e1]
          simp only [List.cons_append, exec_ldxb, exec_subReg, exec_jeq,
            setReg_skip, setReg_stack, setReg_regs_self, setReg_regs_ne,
            hskip, hx, hy, h1d, hdst, ne_eq, not_false_eq_true]
          by_cases hy0 : y = 0
          · rw [if_pos (by exact_mod_cast hy0)]
            rw [exec_skip_step hit vaddr heap _ _ _ 0 rfl (by simp)]
            rw [exec_skip_through hit vaddr heap 0 _ rest _ rfl
              (strcmp_loop_no_label 0 dst 0 _ _ _ _)]
            refine ⟨_, rfl, ?_, by simp, by simp, Or.inr rfl⟩
            simp [cmpBytes, hy0]
          · rw [if_neg (by exact_mod_cast hy0)]
            simp only [exec_jne, setReg_skip, setReg_stack, setReg_regs_self,
              setReg_regs_ne, hskip, h1d, hdst, ne_eq, not_false_eq_true]
            by_cases hxy : x = y
            · rw [if_neg (by subst hxy; simp)]
              obtain ⟨s', hrun, hregs, hstack, hres, hsk⟩ :=
                ih (y2 :: ys2) (a + 1) (b + 1) rest
                  (setReg (setReg (setReg s dst (x : Int)) 1 (y : Int)) dst
                    ((x : Int) - (y : Int)))
                  hskip (by simp) (by simpa using hlen)
                  (by
                    intro i hi
                    show s.stack (a + 1 + (i : Int)) = _
                    have h := hA (i + 1) (by simpa using hi)
                    rw [show a + 1 + (i : Int) = a + ((i + 1 : Nat) : Int) by
                      push_cast; ring]
                    simpa using h)
                  (by
                    intro i hi
                    show s.stack (b + 1 + (i : Int)) = _
                    have h := hB (i + 1) (by simpa using hi)
                    rw [show b + 1 + (i : Int) = b + ((i + 1 : Nat) : Int) by
                      push_cast; ring]
                    simpa using h)
              refine ⟨s', hrun, ?_, by simpa using hstack, by simpa using hres, hsk⟩
              rw [hregs]
              have hcond : ¬(x ≠ y ∨ y = 0) := by
                push_neg
                exact ⟨hxy, hy0⟩
              simp [cmpBytes, hcond]
            · rw [if_pos (by
                intro hc
                exact hxy (by omega))]
              rw [exec_skip_through hit vaddr heap 0 _ rest _ rfl
                (strcmp_loop_no_label 0 dst 0 _ _ _ _)]
              refine ⟨_, rfl, ?_, by simp, by simp, Or.inr rfl⟩
              simp [cmpBytes, hxy]

/-- Unfolding `cmpBytes` at the last compared position. -/
theorem cmpBytes_last (x y : Nat) (xs ys : List Nat) (h : xs = [] ∨ ys = []) :
    cmpBytes (x :: xs) (y :: ys) = (x : Int) - (y : Int) := by
  simp only [cmpBytes]
  rw [if_pos h]

/-- Unfolding `cmpBytes` at a non-final position: stop with the byte
difference when the bytes differ or the second operand's byte is zero,
else continue. -/
theorem cmpBytes_cons₂ (x y : Nat) (xs ys : List Nat) (hxs : xs ≠ []) (hys : ys ≠ []) :
    cmpBytes (x :: xs) (y :: ys)
      = if x ≠ y ∨ y = 0 then (x : Int) - (y : Int) else cmpBytes xs ys := by
  simp only [cmpBytes]
  rw [if_neg (by
    intro hc
    rcases hc with hc | hc
    · exact hxs hc
    · exact hys hc)]

/-- Running the literal-operand comparison loop (the string literal's
bytes `bl` are baked in as immediates, nothing is loaded for the second
operand) leaves `cmpBytes A (bl.take A.length)` in `dst`. -/
theorem strcmp_loop_lit (hit : Bool) (vaddr : Int) (heap : Int → Nat) (dst : Nat) :
    ∀ (A bl : List Nat) (a b : Int) (rest : List Ins) (s : St),
      s.skip = none → A ≠ [] → A.length ≤ bl.length →
      (∀ i : Nat, i < A.length → s.stack (a + (i : Int)) = A.getD i 0) →
      ∃ s' : St,
        exec hit vaddr heap (strcmp_emit_loop dst 0 a b (some bl) A.length ++ rest) s
          = exec hit vaddr heap rest s' ∧
        s'.regs dst = cmpBytes A (bl.take A.length) ∧
        s'.stack = s.stack ∧ s'.result = s.result ∧
        (s'.skip = none ∨ s'.skip = some 0) := by
  intro A
  induction A with
  | nil => intro bl a b rest s _ hne; exact absurd rfl hne
  | cons x xs ih =>
    intro bl a b rest s hskip _ hlen hA
    cases bl with
    | nil => simp at hlen
    | cons z bl' =>
      have hx : s.stack a = x := by simpa using hA 0 (by simp)
      cases xs with
      | nil =>
        have e1 : strcmp_emit_loop dst 0 a b (some (z :: bl')) (List.length [x])
            = [Ins.ldxb dst a, Ins.subImm dst (z : Int)] := by
          simp [strcmp_emit_loop]
        rw [e1]
        simp only [List.cons_append, List.nil_append, exec_ldxb, exec_subImm,
          setReg_skip, setReg_stack, setReg_regs_self, hskip, hx]
        refine ⟨_, rfl, ?_, by simp, by simp, Or.inl hskip⟩
        have htk : (z :: bl').take (List.length [x]) = [z] := by simp
        rw [htk, cmpBytes_last x z [] [] (Or.inl rfl)]
        simp
      | cons x2 xs2 =>
        have htk : (z :: bl').take (x :: x2 :: xs2).length
            = z :: bl'.take (x2 :: xs2).length := by
          simp
        have htkne : bl'.take (x2 :: xs2).length ≠ [] := by
          simp only [ne_eq, List.take_eq_nil_iff]
          push_neg
          constructor
          · simp
          · intro hbl
            subst hbl
            simp at hlen
        by_cases hz : z = 0
        · have e1 : strcmp_emit_loop dst 0 a b (some (z :: bl'))
              (List.length (x :: x2 :: xs2))
              = [Ins.ldxb dst a, Ins.subImm dst (z : Int)] := by
            simp [strcmp_emit_loop, hz]
          rw [e1]
          simp only [List.cons_append, List.nil_append, exec_ldxb, exec_subImm,
            setReg_skip, setReg_stack, setReg_regs_self, hskip, hx]
          refine ⟨_, rfl, ?_, by simp, by simp, Or.inl hskip⟩
          rw [htk, cmpBytes_cons₂ x z _ _ (by simp) htkne, if_pos (Or.inr hz)]
          simp
        · have e1 : strcmp_emit_loop dst 0 a b (some (z :: bl'))
              (List.length (x :: x2 :: xs2))
              = Ins.ldxb dst a :: Ins.subImm dst (z : Int) :: Ins.jne dst 0 0 ::
                strcmp_emit_loop dst 0 (a + 1) (b + 1) (some bl') (x2 :: xs2).length := by
            simp [strcmp_emit_loop, hz]
          rw [e1]
          simp only [List.cons_append, exec_ldxb, exec_subImm, exec_jne,
            setReg_skip, setReg_stack, setReg_regs_self, hskip, hx]
          by_cases hxz : x = z
          · rw [if_neg (by subst hxz; simp)]
            obtain ⟨s', hrun, hregs, hstack, hres, hsk⟩ :=
              ih bl' (a + 1) (b + 1) rest
                (setReg (setReg s dst (x : Int)) dst ((x : Int) - (z : Int)))
                hskip (by simp) (by simpa using hlen)
                (by
                  intro i hi
                  show s.stack (a + 1 + (i : Int)) = _
                  have h := hA (i + 1) (by simpa using hi)
                  rw [show a + 1 + (i : Int) = a + ((i + 1 : Nat) : Int) by
                    push_cast; ring]
                  simpa using h)
            refine ⟨s', hrun, ?_, by simpa using hstack, by simpa using hres, hsk⟩
            rw [hregs, htk, cmpBytes_cons₂ x z _ _ (by simp) htkne,
              if_neg (by push_neg; exact ⟨hxz, hz⟩)]
          · rw [if_pos (by
              intro hc
              exact hxz (by omega))]
            rw [exec_skip_through hit vaddr heap 0 _ rest _ rfl
              (strcmp_loop_no_label 0 dst 0 _ _ _ _)]
            refine ⟨_, rfl, ?_, by simp, by simp, Or.inr rfl⟩
            rw [htk, cmpBytes_cons₂ x z _ _ (by simp) htkne, if_pos (Or.inl hxz)]
            simp

/-- `cmpBytes` is antisymmetric on equal-length sequences: swapping the
operands negates the result exactly. -/
theorem cmpBytes_antisymm : ∀ (A B : List Nat), A.length = B.length →
    cmpBytes B A = -(cmpBytes A B) := by
  intro A
  induction A with
  | nil =>
    intro B h
    cases B with
    | nil => simp [cmpBytes]
    | cons y ys => simp at h
  | cons x xs ih =>
    intro B h
    cases B with
    | nil => simp at h
    | cons y ys =>
      cases xs with
      | nil =>
        cases ys with
        | nil =>
          rw [cmpBytes_last y x [] [] (Or.inl rfl), cmpBytes_last x y [] [] (Or.inl rfl)]
          ring
        | cons y2 ys2 => simp at h
      | cons x2 xs2 =>
        cases ys with
        | nil => simp at h
        | cons y2 ys2 =>
          rw [cmpBytes_cons₂ y x _ _ (by simp) (by simp),
            cmpBytes_cons₂ x y _ _ (by simp) (by simp)]
          by_cases hxy : x = y
          · by_cases hy0 : y = 0
            · rw [if_pos (Or.inr (show x = 0 by omega)), if_pos (Or.inr hy0)]
              ring
            · rw [if_neg (by push_neg; exact ⟨hxy.symm, fun hc => hy0 (by omega)⟩),
                if_neg (by push_neg; exact ⟨hxy, hy0⟩)]
              exact ih (y2 :: ys2) (by simpa using h)
          · rw [if_pos (Or.inl (fun hc => hxy hc.symm)), if_pos (Or.inl hxy)]
            ring

/-- On equal-length sequences whose second operand has no interior zero
byte, `cmpBytes` vanishes exactly on byte-identical sequences. -/
theorem cmpBytes_eq_zero_iff : ∀ (A B : List Nat), A.length = B.length →
    (∀ i : Nat, i + 1 < B.length → B.getD i 0 ≠ 0) →
    (cmpBytes A B = 0 ↔ A = B) := by
  intro A
  induction A with
  | nil =>
    intro B h _
    cases B with
    | nil => simp [cmpBytes]
    | cons y ys => simp at h
  | cons x xs ih =>
    intro B h hnull
    cases B with
    | nil => simp at h
    | cons y ys =>
      cases xs with
      | nil =>
        cases ys with
        | nil =>
          rw [cmpBytes_last x y [] [] (Or.inl rfl)]
          constructor
          · intro hc
            have hxy : x = y := by omega
            rw [hxy]
          · intro hc
            have hxy : x = y := by simpa using hc
            rw [hxy]
            ring
        | cons y2 ys2 => simp at h
      | cons x2 xs2 =>
        cases ys with
        | nil => simp at h
        | cons y2 ys2 =>
          have hy0 : y ≠ 0 := hnull 0 (by simp)
          rw [cmpBytes_cons₂ x y _ _ (by simp) (by simp)]
          by_cases hxy : x = y
          · rw [if_neg (by push_neg; exact ⟨hxy, hy0⟩)]
            rw [ih (y2 :: ys2) (by simpa using h)
              (by
                intro i hi
                have hh := hnull (i + 1) (by simpa using hi)
                simpa using hh)]
            simp [hxy]
          · rw [if_pos (Or.inl hxy)]
            constructor
            · intro hc
              exact absurd (show x = y by omega) hxy
            · intro hc
              exact absurd (show x = y by simpa using congrArg (fun l => l.headD 0) hc) hxy

/-- On equal-length sequences whose second operand has no interior zero
byte, a non-zero comparison is the byte difference at the first
differing index. -/
theorem cmpBytes_first_diff : ∀ (A B : List Nat), A.length = B.length →
    (∀ i : Nat, i + 1 < B.length → B.getD i 0 ≠ 0) →
    A ≠ B →
    ∃ i : Nat, i < A.length ∧ (∀ j : Nat, j < i → A.getD j 0 = B.getD j 0) ∧
      A.getD i 0 ≠ B.getD i 0 ∧
      cmpBytes A B = (A.getD i 0 : Int) - (B.getD i 0 : Int) := by
  intro A
  induction A with
  | nil =>
    intro B h _ hne
    cases B with
    | nil => exact absurd rfl hne
    | cons y ys => simp at h
  | cons x xs ih =>
    intro B h hnull hne
    cases B with
    | nil => simp at h
    | cons y ys =>
      by_cases hxy : x = y
      · cases xs with
        | nil =>
          cases ys with
          | nil => exact absurd (by rw [hxy]) hne
          | cons y2 ys2 => simp at h
        | cons x2 xs2 =>
          cases ys with
          | nil => simp at h
          | cons y2 ys2 =>
            have hy0 : y ≠ 0 := hnull 0 (by simp)
            have htne : (x2 :: xs2) ≠ (y2 :: ys2) := by
              intro hc
              exact hne (by rw [hxy, hc])
            obtain ⟨i, hi, hpre, hdiff, hval⟩ :=
              ih (y2 :: ys2) (by simpa using h)
                (by
                  intro i hi
                  have hh := hnull (i + 1) (by simpa using hi)
                  simpa using hh)
                htne
            refine ⟨i + 1, by simpa using hi, ?_, by simpa using hdiff, ?_⟩
            · intro j hj
              cases j with
              | zero => simpa using hxy
              | succ j' => simpa using hpre j' (by omega)
            · rw [cmpBytes_cons₂ x y _ _ (by simp) (by simp),
                if_neg (by push_neg; exact ⟨hxy, hy0⟩)]
              simpa using hval
      · refine ⟨0, by simp, by intro j hj; omega, by simpa using hxy, ?_⟩
        cases xs with
        | nil =>
          cases ys with
          | nil =>
            rw [cmpBytes_last x y [] [] (Or.inl rfl)]
            simp
          | cons y2 ys2 => simp at h
        | cons x2 xs2 =>
          cases ys with
          | nil => simp at h
          | cons y2 ys2 =>
            rw [cmpBytes_cons₂ x y _ _ (by simp) (by simp), if_pos (Or.inl hxy)]
            simp

/-- A byte of a `take`-prefix equals the corresponding byte of the list. -/
theorem getD_take (l : List Nat) (n i : Nat) (h : i < n) :
    (l.take n).getD i 0 = l.getD i 0 := by
  simp [List.getD_eq_getElem?_getD, List.getElem?_take, h]

/-- The relation between one operand node of `strcmp` and the byte
sequence it denotes at codegen time: the operand type's size is the
data length, and the data is either the string literal's bytes
(`string.data`) or, for a non-literal operand, lives in the node's
stack-resident storage. -/
def operand_models (nd : Node) (data : List Nat) (stk : Int → Nat) : Prop :=
  type_sizeof_opt nd.sym.type = (data.length : Int) ∧
  (if nd.isString then nd.stringData = data
   else sym_on_stack nd.sym = true ∧
     ∀ i : Nat, i < data.length → stk (nd.sym.irs.stack + (i : Int)) = data.getD i 0)

/-- C3 amended: over the compared window of `len = min (sizeof a)
(sizeof b)` bytes, the code `strcmp_ir_post` emits evaluates to
`cmpBytes`, the null-terminated comparison: it stops at the first
position where the bytes differ or the second operand's byte is zero,
and returns the byte difference there — in the literal-swap case the
emitted final negation makes the result equal (not merely equal in
sign) to the unswapped comparison.  Consequently, whenever the second
operand has no interior zero byte in the window, the result is 0 iff
the windows are byte-identical, and otherwise it is the byte difference
at the first differing index (so its sign matches lexicographic
byte-order comparison there).  Without that null-freedom proviso the
original claim fails (see the counterexample). -/
theorem C3_strcmp_null_terminated
    (f : String) (aArg bArg : Node) (rargs : List Node) (sym : Symb)
    (A B : List Nat) (hit : Bool) (vaddr : Int) (heap : Int → Nat) (s : St)
    (hskip : s.skip = none)
    (hdst : (if sym_in_reg sym then sym.irs.reg else 0) ≠ 1)
    (hA : operand_models aArg A s.stack) (hB : operand_models bArg B s.stack)
    (hApos : A ≠ []) (hBpos : B ≠ [])
    (hnotboth : ¬(aArg.isString = true ∧ bArg.isString = true)) :
    ∃ prog, strcmp_ir_post (Node.expr f (aArg :: bArg :: rargs) sym) = some prog ∧
      (exec hit vaddr heap prog s).result
        = cmpBytes (A.take (min A.length B.length)) (B.take (min A.length B.length)) ∧
      ((∀ i : Nat, i + 1 < min A.length B.length → B.getD i 0 ≠ 0) →
        ((cmpBytes (A.take (min A.length B.length)) (B.take (min A.length B.length)) = 0
            ↔ A.take (min A.length B.length) = B.take (min A.length B.length)) ∧
         (A.take (min A.length B.length) ≠ B.take (min A.length B.length) →
           ∃ i : Nat, i < min A.length B.length ∧
             (∀ j : Nat, j < i → A.getD j 0 = B.getD j 0) ∧
             A.getD i 0 ≠ B.getD i 0 ∧
             cmpBytes (A.take (min A.length B.length)) (B.take (min A.length B.length))
               = (A.getD i 0 : Int) - (B.getD i 0 : Int)))) := by
  obtain ⟨haLen, haRest⟩ := hA
  obtain ⟨hbLen, hbRest⟩ := hB
  have hnsym : (Node.expr f (aArg :: bArg :: rargs) sym).sym = sym := rfl
  have hAlen1 : 1 ≤ A.length := by
    cases A with
    | nil => exact absurd rfl hApos
    | cons _ _ => simp
  have hBlen1 : 1 ≤ B.length := by
    cases B with
    | nil => exact absurd rfl hBpos
    | cons _ _ => simp
  have hLpos : 1 ≤ min A.length B.length := le_min hAlen1 hBlen1
  have hAtake : (A.take (min A.length B.length)).length = min A.length B.length := by
    simp [List.length_take]
  have hBtake : (B.take (min A.length B.length)).length = min A.length B.length := by
    simp [List.length_take]
  have hAtake_ne : A.take (min A.length B.length) ≠ [] := by
    simp only [ne_eq, List.take_eq_nil_iff]
    push_neg
    exact ⟨by omega, hApos⟩
  have hBtake_ne : B.take (min A.length B.length) ≠ [] := by
    simp only [ne_eq, List.take_eq_nil_iff]
    push_neg
    exact ⟨by omega, hBpos⟩
  -- the byte-value characterisation, independent of the operand shapes
  have hval : (∀ i : Nat, i + 1 < min A.length B.length → B.getD i 0 ≠ 0) →
      ((cmpBytes (A.take (min A.length B.length)) (B.take (min A.length B.length)) = 0
          ↔ A.take (min A.length B.length) = B.take (min A.length B.length)) ∧
       (A.take (min A.length B.length) ≠ B.take (min A.length B.length) →
         ∃ i : Nat, i < min A.length B.length ∧
           (∀ j : Nat, j < i → A.getD j 0 = B.getD j 0) ∧
           A.getD i 0 ≠ B.getD i 0 ∧
           cmpBytes (A.take (min A.length B.length)) (B.take (min A.length B.length))
             = (A.getD i 0 : Int) - (B.getD i 0 : Int))) := by
    intro hnull
    have hlensT : (A.take (min A.length B.length)).length
        = (B.take (min A.length B.length)).length := by rw [hAtake, hBtake]
    have hnull' : ∀ i : Nat, i + 1 < (B.take (min A.length B.length)).length →
        (B.take (min A.length B.length)).getD i 0 ≠ 0 := by
      intro i hi
      rw [hBtake] at hi
      rw [getD_take _ _ _ (by omega)]
      exact hnull i hi
    refine ⟨cmpBytes_eq_zero_iff _ _ hlensT hnull', ?_⟩
    intro hneq
    obtain ⟨i, hi, hpre, hdiff, hv⟩ := cmpBytes_first_diff _ _ hlensT hnull' hneq
    rw [hAtake] at hi
    refine ⟨i, hi, ?_, ?_, ?_⟩
    · intro j hj
      have hh := hpre j hj
      rwa [getD_take _ _ _ (by omega), getD_take _ _ _ (by omega)] at hh
    · rwa [getD_take _ _ _ (by omega), getD_take _ _ _ (by omega)] at hdiff
    · rwa [getD_take _ _ _ (by omega), getD_take _ _ _ (by omega)] at hv
  cases haS : aArg.isString
  case true =>
    -- swapped case: the first operand is the string literal
    have hbS : bArg.isString = false := by
      cases hb : bArg.isString
      · rfl
      · exact absurd ⟨haS, hb⟩ hnotboth
    rw [haS] at haRest
    rw [hbS] at hbRest
    simp only [if_true, if_false, Bool.false_eq_true] at haRest hbRest
    obtain ⟨honB, hstkB⟩ := hbRest
    have hpost : strcmp_ir_post (Node.expr f (aArg :: bArg :: rargs) sym)
        = some (strcmp_emit (if sym_in_reg sym then sym.irs.reg else 0)
              bArg.sym.irs.stack aArg.sym.irs.stack (some A)
              (min B.length A.length)
            ++ [Ins.negReg (if sym_in_reg sym then sym.irs.reg else 0)]
            ++ [Ins.regToSym (if sym_in_reg sym then sym.irs.reg else 0)]) := by
      have hminBA : (min ((B.length : Nat) : Int) ((A.length : Nat) : Int)).toNat
          = min B.length A.length := by omega
      simp [strcmp_ir_post, Node.args, haS, hbS, hnsym, honB, haRest, haLen, hbLen,
        hminBA]
    have hprogeq : strcmp_emit (if sym_in_reg sym then sym.irs.reg else 0)
            bArg.sym.irs.stack aArg.sym.irs.stack (some A) (min B.length A.length)
          ++ [Ins.negReg (if sym_in_reg sym then sym.irs.reg else 0)]
          ++ [Ins.regToSym (if sym_in_reg sym then sym.irs.reg else 0)]
        = strcmp_emit_loop (if sym_in_reg sym then sym.irs.reg else 0) 0
            bArg.sym.irs.stack aArg.sym.irs.stack (some A) (min B.length A.length)
          ++ [Ins.label 0, Ins.negReg (if sym_in_reg sym then sym.irs.reg else 0),
              Ins.regToSym (if sym_in_reg sym then sym.irs.reg else 0)] := by
      simp [strcmp_emit]
    have hBtake' : (B.take (min A.length B.length)).length = min B.length A.length := by
      rw [hBtake, Nat.min_comm]
    obtain ⟨s', hrun, hregs, hstack, hres, hsk⟩ :=
      strcmp_loop_lit hit vaddr heap (if sym_in_reg sym then sym.irs.reg else 0)
        (B.take (min A.length B.length)) A bArg.sym.irs.stack aArg.sym.irs.stack
        [Ins.label 0, Ins.negReg (if sym_in_reg sym then sym.irs.reg else 0),
         Ins.regToSym (if sym_in_reg sym then sym.irs.reg else 0)] s
        hskip hBtake_ne (by rw [hBtake']; omega)
        (by
          intro i hi
          rw [hBtake] at hi
          rw [getD_take _ _ _ hi]
          exact hstkB i (by omega))
    rw [hBtake'] at hrun
    refine ⟨_, hpost, ?_, hval⟩
    rw [hprogeq, hrun]
    have hcA : A.take (B.take (min A.length B.length)).length
        = A.take (min A.length B.length) := by
      rw [hBtake']
      rw [show min B.length A.length = min A.length B.length from Nat.min_comm _ _]
    rw [hcA] at hregs
    have hanti : cmpBytes (B.take (min A.length B.length)) (A.take (min A.length B.length))
        = -(cmpBytes (A.take (min A.length B.length)) (B.take (min A.length B.length))) :=
      cmpBytes_antisymm _ _ (by rw [hAtake, hBtake])
    rcases hsk with hsk | hsk
    · rw [exec_label_none _ _ _ _ _ _ hsk, exec_negReg _ _ _ _ _ _ hsk,
        exec_regToSym _ _ _ _ _ _ (by simp [hsk])]
      simp only [exec, setReg_regs_self]
      rw [hregs, hanti]
      ring
    · rw [exec_label_clear _ _ _ _ _ _ hsk, exec_negReg _ _ _ _ _ _ rfl,
        exec_regToSym _ _ _ _ _ _ rfl]
      simp only [exec, setReg_regs_self]
      show -(s'.regs _) = _
      rw [hregs, hanti]
      ring
  case false =>
    rw [haS] at haRest
    simp only [Bool.false_eq_true, if_false] at haRest
    obtain ⟨honA, hstkA⟩ := haRest
    have hLmin : min ((A.length : Nat) : Int) ((B.length : Nat) : Int)
        = ((min A.length B.length : Nat) : Int) := by omega
    cases hbS : bArg.isString
    case false =>
      rw [hbS] at hbRest
      simp only [Bool.false_eq_true, if_false] at hbRest
      obtain ⟨honB, hstkB⟩ := hbRest
      have hpost : strcmp_ir_post (Node.expr f (aArg :: bArg :: rargs) sym)
          = some (strcmp_emit (if sym_in_reg sym then sym.irs.reg else 0)
                aArg.sym.irs.stack bArg.sym.irs.stack none (min A.length B.length)
              ++ [] ++ [Ins.regToSym (if sym_in_reg sym then sym.irs.reg else 0)]) := by
        have hminAB : (min ((A.length : Nat) : Int) ((B.length : Nat) : Int)).toNat
            = min A.length B.length := by omega
        simp [strcmp_ir_post, Node.args, haS, hbS, hnsym, honA, honB, haLen, hbLen,
          hminAB]
      have hprogeq : strcmp_emit (if sym_in_reg sym then sym.irs.reg else 0)
              aArg.sym.irs.stack bArg.sym.irs.stack none (min A.length B.length)
            ++ [] ++ [Ins.regToSym (if sym_in_reg sym then sym.irs.reg else 0)]
          = strcmp_emit_loop (if sym_in_reg sym then sym.irs.reg else 0) 0
              aArg.sym.irs.stack bArg.sym.irs.stack none (min A.length B.length)
            ++ [Ins.label 0,
                Ins.regToSym (if sym_in_reg sym then sym.irs.reg else 0)] := by
        simp [strcmp_emit]
      obtain ⟨s', hrun, hregs, hstack, hres, hsk⟩ :=
        strcmp_loop_nonlit hit vaddr heap (if sym_in_reg sym then sym.irs.reg else 0) hdst
          (A.take (min A.length B.length)) (B.take (min A.length B.length))
          aArg.sym.irs.stack bArg.sym.irs.stack
          [Ins.label 0, Ins.regToSym (if sym_in_reg sym then sym.irs.reg else 0)] s
          hskip hAtake_ne (by rw [hAtake, hBtake])
          (by
            intro i hi
            rw [hAtake] at hi
            rw [getD_take _ _ _ hi]
            exact hstkA i (by omega))
          (by
            intro i hi
            rw [hBtake] at hi
            rw [getD_take _ _ _ hi]
            exact hstkB i (by omega))
      rw [hAtake] at hrun
      refine ⟨_, hpost, ?_, hval⟩
      rw [hprogeq, hrun]
      rcases hsk with hsk | hsk
      · rw [exec_label_none _ _ _ _ _ _ hsk, exec_regToSym _ _ _ _ _ _ hsk]
        simp only [exec]
        exact hregs
      · rw [exec_label_clear _ _ _ _ _ _ hsk, exec_regToSym _ _ _ _ _ _ rfl]
        simp only [exec]
        exact hregs
    case true =>
      rw [hbS] at hbRest
      simp only [if_true] at hbRest
      have hpost : strcmp_ir_post (Node.expr f (aArg :: bArg :: rargs) sym)
          = some (strcmp_emit (if sym_in_reg sym then sym.irs.reg else 0)
                aArg.sym.irs.stack bArg.sym.irs.stack (some B) (min A.length B.length)
              ++ [] ++ [Ins.regToSym (if sym_in_reg sym then sym.irs.reg else 0)]) := by
        have hminAB : (min ((A.length : Nat) : Int) ((B.length : Nat) : Int)).toNat
            = min A.length B.length := by omega
        simp [strcmp_ir_post, Node.args, haS, hbS, hnsym, honA, hbRest, haLen, hbLen,
          hminAB]
      have hprogeq : strcmp_emit (if sym_in_reg sym then sym.irs.reg else 0)
              aArg.sym.irs.stack bArg.sym.irs.stack (some B) (min A.length B.length)
            ++ [] ++ [Ins.regToSym (if sym_in_reg sym then sym.irs.reg else 0)]
          = strcmp_emit_loop (if sym_in_reg sym then sym.irs.reg else 0) 0
              aArg.sym.irs.stack bArg.sym.irs.stack (some B) (min A.length B.length)
            ++ [Ins.label 0,
                Ins.regToSym (if sym_in_reg sym then sym.irs.reg else 0)] := by
        simp [strcmp_emit]
      obtain ⟨s', hrun, hregs, hstack, hres, hsk⟩ :=
        strcmp_loop_lit hit vaddr heap (if sym_in_reg sym then sym.irs.reg else 0)
          (A.take (min A.length B.length)) B
          aArg.sym.irs.stack bArg.sym.irs.stack
          [Ins.label 0, Ins.regToSym (if sym_in_reg sym then sym.irs.reg else 0)] s
          hskip hAtake_ne (by rw [hAtake]; omega)
          (by
            intro i hi
            rw [hAtake] at hi
            rw [getD_take _ _ _ hi]
            exact hstkA i (by omega))
      rw [hAtake] at hrun
      have hcB : B.take (A.take (min A.length B.length)).length
          = B.take (min A.length B.length) := by rw [hAtake]
      rw [hcB] at hregs
      refine ⟨_, hpost, ?_, hval⟩
      rw [hprogeq, hrun]
      rcases hsk with hsk | hsk
      · rw [exec_label_none _ _ _ _ _ _ hsk, exec_regToSym _ _ _ _ _ _ hsk]
        simp only [exec]
        exact hregs
      · rw [exec_label_clear _ _ _ _ _ _ hsk, exec_regToSym _ _ _ _ _ _ rfl]
        simp only [exec]
        exact hregs

/-- C2 witness: the amended strcmp-inference theorem applied at a
concrete node comparing a string-typed operand with a string literal:
inference succeeds, types the node as a signed integer, and emits no
diagnostics at all. -/
theorem C2_strcmp_infer_warns_not_fails_witness :
    (strcmp_type_infer
        (Node.expr "strcmp"
          [Node.expr "comm" [] { type := some (type_array_of t_char 16) },
           Node.nstr [115, 104, 0] false { type := some (type_array_of t_char 3) }]
          {})).ret = 0 ∧
    (strcmp_type_infer
        (Node.expr "strcmp"
          [Node.expr "comm" [] { type := some (type_array_of t_char 16) },
           Node.nstr [115, 104, 0] false { type := some (type_array_of t_char 3) }]
          {})).node.sym.type = some t_int ∧
    Diag.err ∉ (strcmp_type_infer
        (Node.expr "strcmp"
          [Node.expr "comm" [] { type := some (type_array_of t_char 16) },
           Node.nstr [115, 104, 0] false { type := some (type_array_of t_char 3) }]
          {})).diags := by
  have h := C2_strcmp_infer_warns_not_fails "strcmp"
    (Node.expr "comm" [] { type := some (type_array_of t_char 16) })
    (Node.nstr [115, 104, 0] false { type := some (type_array_of t_char 3) })
    [] {} rfl rfl rfl
  exact ⟨h.1, h.2.1, h.2.2.2⟩

/-- C3 witness: the null-terminated equivalence theorem applied at a
concrete comparison of the stack-resident bytes "hi" with the string
literal "hi\x00" — the emitted program runs to result 0. -/
theorem C3_strcmp_null_terminated_witness :
    (strcmp_ir_post
        (Node.expr "strcmp"
          [Node.expr "x" [] { type := some (type_array_of t_char 2),
                              irs := { loc := Loc.stack, stack := 0 } },
           Node.nstr [104, 105, 0] false { type := some (type_array_of t_char 3) }]
          {})).map
      (fun prog => (exec false 0 (fun _ => 0) prog
        { regs := fun _ => 0,
          stack := fun i => if i = 0 then 104 else if i = 1 then 105 else 0,
          result := 0 }).result)
      = some 0 := by
  obtain ⟨prog, hpost, hres, _⟩ :=
    C3_strcmp_null_terminated "strcmp"
      (Node.expr "x" [] { type := some (type_array_of t_char 2),
                          irs := { loc := Loc.stack, stack := 0 } })
      (Node.nstr [104, 105, 0] false { type := some (type_array_of t_char 3) })
      [] {} [104, 105] [104, 105, 0] false 0 (fun _ => 0)
      { regs := fun _ => 0,
        stack := fun i => if i = 0 then 104 else if i = 1 then 105 else 0,
        result := 0 }
      rfl (by decide)
      ⟨by decide, ⟨rfl, by decide⟩⟩
      ⟨by decide, rfl⟩
      (by decide) (by decide) (by decide)
  rw [hpost]
  simp only [Option.map_some']
  rw [hres]
  decide

/-- The layout invariant of the external type system (spec: field
offsets are monotonically increasing, derived from the preceding
fields' sizes and natural alignment): starting from position `pos`,
each field begins at or after the current position and advances it
past its own end. -/
def layoutOk : Nat → List (Nat × Nat) → Bool
  | _, [] => true
  | pos, (o, s) :: rest => (pos ≤ o) && layoutOk (o + s) rest

/-- Every field of a well-laid-out list starts at or after `pos`. -/
theorem chain_mem_lb : ∀ (fs : List (Nat × Nat)) (pos : Nat),
    layoutOk pos fs = true → ∀ q ∈ fs, pos ≤ q.1 := by
  intro fs
  induction fs with
  | nil => intro pos _ q hq; simp at hq
  | cons p tail ih =>
    intro pos hc q hq
    obtain ⟨o, s⟩ := p
    simp only [layoutOk, Bool.and_eq_true, decide_eq_true_eq] at hc
    rcases List.mem_cons.mp hq with h | h
    · rw [h]
      exact hc.1
    · have := ih (o + s) hc.2 q h
      omega

/-- The head field's offset is at most the last field's offset. -/
theorem chain_head_le_last : ∀ (fs : List (Nat × Nat)) (pos : Nat),
    layoutOk pos fs = true →
    (fs.headD (0, 0)).1 ≤ (fs.getLast?.getD (0, 0)).1 := by
  intro fs
  induction fs with
  | nil => intro pos _; simp
  | cons p tail ih =>
    intro pos hc
    obtain ⟨o, s⟩ := p
    cases tail with
    | nil => simp
    | cons q rest =>
      obtain ⟨o2, s2⟩ := q
      simp only [layoutOk, Bool.and_eq_true, decide_eq_true_eq] at hc
      obtain ⟨hpo, h12, hrest⟩ := hc
      have hc2 : layoutOk (o + s) ((o2, s2) :: rest) = true := by
        simp only [layoutOk, Bool.and_eq_true, decide_eq_true_eq]
        exact ⟨h12, hrest⟩
      have h2 := ih (o + s) hc2
      rw [List.getLast?_cons_cons]
      simp only [List.headD_cons]
      simp only [List.headD_cons] at h2
      omega

/-- The last field's end bounds every field's end. -/
theorem chain_mem_ub : ∀ (fs : List (Nat × Nat)) (pos : Nat),
    layoutOk pos fs = true → ∀ q ∈ fs,
      q.1 + q.2 ≤ (fs.getLast?.getD (0, 0)).1 + (fs.getLast?.getD (0, 0)).2 := by
  intro fs
  induction fs with
  | nil => intro pos _ q hq; simp at hq
  | cons p tail ih =>
    intro pos hc q hq
    obtain ⟨o, s⟩ := p
    cases tail with
    | nil =>
      simp only [List.getLast?_singleton, Option.getD_some]
      rcases List.mem_cons.mp hq with h | h
      · rw [h]
      · simp at h
    | cons r rest =>
      obtain ⟨o2, s2⟩ := r
      simp only [layoutOk, Bool.and_eq_true, decide_eq_true_eq] at hc
      obtain ⟨hpo, h12, hrest⟩ := hc
      have hc2 : layoutOk (o + s) ((o2, s2) :: rest) = true := by
        simp only [layoutOk, Bool.and_eq_true, decide_eq_true_eq]
        exact ⟨h12, hrest⟩
      rw [List.getLast?_cons_cons]
      rcases List.mem_cons.mp hq with h | h
      · rw [h]
        have hub2 : o2 + s2
            ≤ (((o2, s2) :: rest).getLast?.getD (0, 0)).1
              + (((o2, s2) :: rest).getLast?.getD (0, 0)).2 :=
          ih (o + s) hc2 (o2, s2) (List.mem_cons_self _ _)
        show o + s ≤ _
        omega
      · exact ih (o + s) hc2 q h

/-- `coversB` distributes over append. -/
theorem coversB_append (l1 l2 : List Ins) (x : Int) :
    coversB (l1 ++ l2) x = (coversB l1 x || coversB l2 x) := by
  simp [coversB, List.any_append]

/-- Unfolding of `inFieldB` into a membership statement. -/
theorem inFieldB_eq_false_iff (fs : List (Nat × Nat)) (z : Int) :
    inFieldB fs z = false
      ↔ ∀ q ∈ fs, ¬((q.1 : Int) ≤ z ∧ z < (q.1 : Int) + (q.2 : Int)) := by
  simp [inFieldB]

/-- Coverage of the inter-field zero-fills: exactly the bytes between
the first field's offset and the last field's offset that belong to no
field. -/
theorem interPads_covers (stack : Int) :
    ∀ (fs : List (Nat × Nat)) (pos : Nat), layoutOk pos fs = true →
      ∀ z : Int,
        (coversB (interPads stack fs) (stack + z) = true
          ↔ (((fs.headD (0, 0)).1 : Int) ≤ z
              ∧ z < ((fs.getLast?.getD (0, 0)).1 : Int)
              ∧ ∀ q ∈ fs, ¬((q.1 : Int) ≤ z ∧ z < (q.1 : Int) + (q.2 : Int)))) := by
  intro fs
  induction fs with
  | nil =>
    intro pos _ z
    simp only [interPads, coversB, List.any_nil, Bool.false_eq_true, false_iff]
    rintro ⟨h1, h2, _⟩
    simp only [List.headD_nil, List.getLast?_nil, Option.getD_none] at h1 h2
    omega
  | cons p tail ih =>
    intro pos hc z
    obtain ⟨o1, s1⟩ := p
    cases tail with
    | nil =>
      simp only [interPads, coversB, List.any_nil, Bool.false_eq_true, false_iff]
      rintro ⟨h1, h2, _⟩
      simp only [List.headD_cons, List.getLast?_singleton, Option.getD_some] at h1 h2
      omega
    | cons q rest =>
      obtain ⟨o2, s2⟩ := q
      simp only [layoutOk, Bool.and_eq_true, decide_eq_true_eq] at hc
      obtain ⟨hpo1, h12, hcrest⟩ := hc
      have hc2 : layoutOk (o1 + s1) ((o2, s2) :: rest) = true := by
        simp only [layoutOk, Bool.and_eq_true, decide_eq_true_eq]
        exact ⟨h12, hcrest⟩
      have hql : o2 ≤ (((o2, s2) :: rest).getLast?.getD (0, 0)).1 := by
        have := chain_head_le_last ((o2, s2) :: rest) (o1 + s1) hc2
        simpa using this
      have htlb : ∀ r ∈ (o2, s2) :: rest, o2 ≤ r.1 := by
        intro r hr
        rcases List.mem_cons.mp hr with h | h
        · rw [h]
        · have := chain_mem_lb rest (o2 + s2) hcrest r h
          omega
      have hIH := ih (o1 + s1) hc2 z
      simp only [interPads]
      rw [coversB_append]
      have hleft : coversB
            (if o2 - (o1 + s1) ≠ 0 then
              [Ins.bzero (stack + ((o1 + s1 : Nat) : Int)) (o2 - (o1 + s1))]
             else []) (stack + z) = true
          ↔ (((o1 + s1 : Nat) : Int) ≤ z ∧ z < (o2 : Int)) := by
        by_cases hpad : o2 - (o1 + s1) ≠ 0
        · rw [if_pos hpad]
          simp only [coversB, List.any_cons, List.any_nil, Bool.or_false,
            decide_eq_true_eq]
          omega
        · rw [if_neg hpad]
          simp only [coversB, List.any_nil, Bool.false_eq_true, false_iff]
          omega
      simp only [Bool.or_eq_true]
      rw [hleft, hIH]
      simp only [List.headD_cons, List.getLast?_cons_cons]
      constructor
      · rintro (⟨h1, h2⟩ | ⟨h1, h2, h3⟩)
        · refine ⟨by omega, by omega, ?_⟩
          intro r hr
          rcases List.mem_cons.mp hr with h | h
          · rw [h]
            simp only
            omega
          · have := htlb r h
            omega
        · refine ⟨by omega, h2, ?_⟩
          intro r hr
          rcases List.mem_cons.mp hr with h | h
          · rw [h]
            simp only
            omega
          · exact h3 r h
      · rintro ⟨h1, h2, h3⟩
        by_cases hz2 : z < (o2 : Int)
        · left
          have hnf1 := h3 (o1, s1) (List.mem_cons_self _ _)
          simp only at hnf1
          constructor
          · omega
          · exact hz2
        · right
          refine ⟨by omega, h2, ?_⟩
          intro r hr
          exact h3 r (List.mem_cons_of_mem _ hr)

/-- C9: for a struct literal laid out at `stack` whose synthesized type
has total size `sz` and fields at the given (offset, size) pairs —
satisfying the external layout invariant: offsets monotonically
increasing starting at 0, struct size at least the last field's end —
the zero-fill instructions emitted by `struct_ir_pre` cover a byte of
the literal's contiguous stack region exactly when it lies inside the
region and belongs to no field: every padding byte (inter-field gap or
trailing padding) is deterministically zeroed, and no field byte is
touched by the fills. -/
theorem C9_struct_padding_zero_fill (stack : Int) (sz : Nat) (fs : List (Nat × Nat))
    (hchain : layoutOk 0 fs = true)
    (hfirst : (fs.headD (0, 0)).1 = 0)
    (hsz : (fs.getLast?.getD (0, 0)).1 + (fs.getLast?.getD (0, 0)).2 ≤ sz) :
    ∀ z : Int,
      coversB (struct_ir_pre_emit stack sz fs) (stack + z) = true
        ↔ (0 ≤ z ∧ z < (sz : Int) ∧ inFieldB fs z = false) := by
  intro z
  have hub := chain_mem_ub fs 0 hchain
  have hhl := chain_head_le_last fs 0 hchain
  simp only [struct_ir_pre_emit]
  rw [coversB_append]
  have htrail : coversB
        (if sz - ((fs.getLast?.getD (0, 0)).1 + (fs.getLast?.getD (0, 0)).2) ≠ 0 then
          [Ins.bzero
            (stack + (((fs.getLast?.getD (0, 0)).1 + (fs.getLast?.getD (0, 0)).2 : Nat) : Int))
            (sz - ((fs.getLast?.getD (0, 0)).1 + (fs.getLast?.getD (0, 0)).2))]
         else []) (stack + z) = true
      ↔ ((((fs.getLast?.getD (0, 0)).1 + (fs.getLast?.getD (0, 0)).2 : Nat) : Int) ≤ z
          ∧ z < (sz : Int)) := by
    by_cases hpad : sz - ((fs.getLast?.getD (0, 0)).1 + (fs.getLast?.getD (0, 0)).2) ≠ 0
    · rw [if_pos hpad]
      simp only [coversB, List.any_cons, List.any_nil, Bool.or_false, decide_eq_true_eq]
      omega
    · rw [if_neg hpad]
      simp only [coversB, List.any_nil, Bool.false_eq_true, false_iff]
      omega
  have hinter := interPads_covers stack fs 0 hchain z
  simp only [Bool.or_eq_true]
  rw [hinter, htrail, inFieldB_eq_false_iff]
  constructor
  · rintro (⟨h1, h2, h3⟩ | ⟨h1, h2⟩)
    · refine ⟨by omega, by omega, h3⟩
    · refine ⟨by omega, h2, ?_⟩
      intro q hq
      have := hub q hq
      omega
  · rintro ⟨h1, h2, h3⟩
    by_cases hz2 : z < ((fs.getLast?.getD (0, 0)).1 : Int)
    · left
      exact ⟨by omega, hz2, h3⟩
    · right
      refine ⟨?_, h2⟩
      rcases fs with _ | ⟨p, tl⟩
      · simpa using h1
      · have hlastmem : ((p :: tl).getLast?.getD (0, 0)) ∈ p :: tl := by
          rw [List.getLast?_eq_getLast (p :: tl) (by simp)]
          simp only [Option.getD_some]
          exact List.getLast_mem _
        have hnf := h3 _ hlastmem
        push_neg at hnf
        have hge := hnf (by omega)
        push_cast
        omega

/-- C9 witness: the padding theorem at the spec's end-to-end example —
a `{u8, u32}` literal: fields at (0,1) and (4,4), size 8 — evaluated at
byte 2, one of the three alignment-gap bytes, which is covered by the
emitted zero-fills. -/
theorem C9_struct_padding_zero_fill_witness :
    coversB (struct_ir_pre_emit 0 8 [(0, 1), (4, 4)]) (0 + (2 : Int)) = true := by
  exact (C9_struct_padding_zero_fill 0 8 [(0, 1), (4, 4)] (by decide) rfl (by decide) 2).mpr
    (by decide)
